import Mathlib

/-!
Verification of `mad::interfaces` (tree nodes and the observable list).

A shallow embedding of

* `tree/include/mad/interfaces/tree/mapnode.hpp` (`MapNode` over `std::map`, key held by pointer),
* `cpp/include/mad/interfaces/tree/mapnode.hpp` (`MapNode` over `std::unordered_map`, key held by copy),
* `tree/include/mad/interfaces/tree/listnode.hpp` and `tree/include/mad/interfaces/tree.hpp` (`ListNode`),
* `cpp/include/mad/interfaces/container/list.hpp` (`List` with its two signals).

Conventions of the embedding.

* `Node` is a type parameter: the objects a `std::unique_ptr<Node>` can own.  A
  `std::unique_ptr<Node>` is an `Option Node`, `none` being the null pointer.
* Every member function that can change its object returns the object after the
  call next to the returned value, also when the call ends with an exception.
* A call that does not return normally ends in a `Fault`: a thrown exception, a
  failed `assert`, or behaviour the language leaves undefined.
* The standard containers are modelled by the lists of their elements in
  iteration order.  The two associative containers are node based: an element
  lives at an address that does not change while the element exists, an
  iterator is the address of an element (or past-the-end), and so is a pointer
  to the key of an element.
-/

set_option autoImplicit false

namespace mad.interfaces

/-! ## Failure conditions -/

/-- The exception classes the code throws.  `at` of `std::vector` throws
`std::out_of_range` (its message is implementation defined and not modelled);
the node classes throw `std::logic_error` themselves. -/
inductive exception where
  | logic_error (what : String)
  | out_of_range
  deriving DecidableEq

/-- The ways a call ends without returning. -/
inductive Fault where
  | thrown (e : exception)
  | assert_failed
  | undefined
  deriving DecidableEq

deriving instance DecidableEq for Except

/-- The classes of the standard exception hierarchy that occur in the code. -/
inductive exception_class where
  | exception
  | logic_error
  | out_of_range
  deriving DecidableEq

/-- The class of the thrown object. -/
def exception.type : exception → exception_class
  | .logic_error _ => .logic_error
  | .out_of_range => .out_of_range

/-- The direct base class: `class out_of_range : public logic_error` and
`class logic_error : public exception` in `<stdexcept>`. -/
def exception_class.base : exception_class → Option exception_class
  | .out_of_range => some .logic_error
  | .logic_error => some .exception
  | .exception => none

/-- Whether class `c` is class `h` or derives from it. -/
def exception_class.is_a (c h : exception_class) : Bool :=
  c = h || c.base = some h || c.base.bind exception_class.base = some h

/-- Whether the handler `catch (const handler&)` matches the thrown object `e`:
it does when the class of `e` is `handler` or derives from it. -/
def catches (handler : exception_class) (e : exception) : Bool :=
  e.type.is_a handler

/-- `using key_type = std::string`. -/
abbrev key_type := String

/-- `std::vector<T>`: its elements in order. -/
abbrev vector (T : Type) := List T

/-- `std::unique_ptr<Node>`: the owned object, or `none` for the null pointer. -/
abbrev unique_ptr (Node : Type) := Option Node

/-- `*p` for a `std::unique_ptr<Node>`; dereferencing the null pointer is undefined. -/
def unique_ptr.deref {Node : Type} (p : unique_ptr Node) : Except Fault Node :=
  match p with
  | some n => .ok n
  | none => .error .undefined

/-! ## The node based associative containers of the standard library -/

namespace stl

/-- One element of `std::map<key_type, V>` or `std::unordered_map<key_type, V>`:
the `std::pair<const key_type, V>` together with the address it lives at. -/
structure node (V : Type) where
  addr : Nat
  first : key_type
  second : V
  deriving DecidableEq

/-- An iterator of a node based container: the address of the element it
designates, `none` for the past-the-end iterator. -/
abbrev iterator := Option Nat

variable {V : Type}

/-- The address the allocator hands out for a new element: one that no live
element occupies. -/
def fresh (s : List (node V)) : Nat :=
  s.foldr (fun e a => max e.addr a) 0 + 1

/-- Model of `find(key)`: the iterator to the element whose key is `key`, else `end()`. -/
def find (s : List (node V)) (key : key_type) : iterator :=
  (s.find? (fun e => e.first == key)).map (fun e => e.addr)

/-- The element an iterator designates (`*it`); `none` when the iterator is
past-the-end or designates no live element, where `*it` is undefined. -/
def get (s : List (node V)) (it : iterator) : Option (node V) :=
  it.bind (fun a => s.find? (fun e => e.addr == a))

/-- Assignment `it->second = v` through an iterator. -/
def put (s : List (node V)) (it : iterator) (v : V) : List (node V) :=
  s.map (fun e => if some e.addr = it then { e with second := v } else e)

/-- Placement of a new element `e` at position `i` of the iteration order. -/
def insertAt (i : Nat) (e : node V) (s : List (node V)) : List (node V) :=
  s.take i ++ e :: s.drop i

/-- Model of `emplace(key, v)`: when an element with that key exists nothing
changes and the result is `(iterator to it, false)`; otherwise a new element is
allocated and the result is `(iterator to the new element, true)`.  `place`
gives the position of the new element in the iteration order. -/
def emplace (place : key_type → List key_type → Nat) (s : List (node V))
    (key : key_type) (v : V) : List (node V) × (iterator × Bool) :=
  match s.find? (fun e => e.first == key) with
  | some e => (s, (some e.addr, false))
  | none =>
    let a := fresh s
    (insertAt (place key (s.map (fun e => e.first))) ⟨a, key, v⟩ s, (some a, true))

/-- Model of `erase(key)`: removes the elements whose key is `key` and returns
how many there were. -/
def erase (s : List (node V)) (key : key_type) : List (node V) × Nat :=
  (s.filter (fun e => !(e.first == key)), (s.filter (fun e => e.first == key)).length)

/-- Model of `begin()`. -/
def begin (s : List (node V)) : iterator :=
  s.head?.map (fun e => e.addr)

/-- The invariant of a container with unique keys whose elements all satisfy
`good`: no key occurs twice, no address is occupied twice. -/
def WF (good : node V → Prop) (s : List (node V)) : Prop :=
  (s.map (fun e => e.first)).Nodup ∧ (s.map (fun e => e.addr)).Nodup ∧ ∀ e ∈ s, good e

/-- Position of a new key in `std::map`: after the keys that compare less
(`std::less<std::string>`, the lexicographic order of the characters). -/
def ordered (key : key_type) (keys : List key_type) : Nat :=
  (keys.takeWhile (fun k => decide (k.data < key.data))).length

end stl

/-! ## Histories of calls on a keyed node -/

/-- A call of a `MapNode` member function that changes the map. -/
inductive Op (Node : Type) where
  | insert (key : key_type) (node : unique_ptr Node)
  | erase (key : key_type)
  | clear

/-- The effect of one call on the binding of keys to nodes, in the words of the
specification: `insert` binds its key to its node when the node is not null and
the key is not bound; `erase` unbinds its key; `clear` unbinds every key. -/
def bind_step {Node : Type} (f : key_type → Option Node) : Op Node → key_type → Option Node
  | .insert key node => fun k =>
    if k = key then (match f key, node with
      | none, some n => some n
      | b, _ => b) else f k
  | .erase key => fun k => if k = key then none else f k
  | .clear => fun _ => none

/-- The node each key is bound to after a sequence of calls on an empty keyed
node, read off the calls alone. -/
def bound {Node : Type} (ops : List (Op Node)) : key_type → Option Node :=
  ops.foldl bind_step (fun _ => none)

/-! ## `MapNode` of `tree/include/mad/interfaces/tree/mapnode.hpp` (and of `tree.hpp`) -/

namespace tree

/-- `MapNode::KeyValuePair`: `const key_type* m_key = nullptr` and
`std::unique_ptr<Node> m_value` (a `unique_ptr Node`, written out).  The pointer
`m_key` is the address of the map element whose key it points to. -/
structure KeyValuePair (Node : Type) where
  m_key : Option Nat := none
  m_value : Option Node := none
  deriving DecidableEq

/-- `class MapNode`, with its one data member `std::map<key_type, KeyValuePair> m_nodes`. -/
structure MapNode (Node : Type) where
  m_nodes : List (stl.node (KeyValuePair Node)) := []
  deriving DecidableEq

/-- What a call of `MapNode::insert` leaves behind. -/
structure InsertCall (Node : Type) where
  /-- the object after the call -/
  self : MapNode Node
  /-- the by-value parameter `node` when the call ends; its destructor then
  deletes the object it still holds -/
  node : unique_ptr Node
  /-- the returned `std::pair<iterator, bool>`, or how the call failed -/
  ret : Except Fault (stl.iterator × Bool)
  deriving DecidableEq

variable {Node : Type}

/-- `KeyValuePair::key()`: `return *m_key;`, read in the map `m` the entry is stored in. -/
def KeyValuePair.key (self : KeyValuePair Node) (m : MapNode Node) : Except Fault key_type :=
  match stl.get m.m_nodes self.m_key with
  | some e => .ok e.first
  | none => .error .undefined

/-- `KeyValuePair::value()`: `return *m_value;`. -/
def KeyValuePair.value (self : KeyValuePair Node) : Except Fault Node :=
  unique_ptr.deref self.m_value

/-- `MapNode::begin()`. -/
def MapNode.begin (self : MapNode Node) : stl.iterator :=
  stl.begin self.m_nodes

/-- `MapNode::end()`. -/
def MapNode.end_ (_self : MapNode Node) : stl.iterator :=
  none

/-- `Iterator::operator*`: `return m_it->second;`. -/
def MapNode.deref (self : MapNode Node) (it : stl.iterator) : Except Fault (KeyValuePair Node) :=
  match stl.get self.m_nodes it with
  | some e => .ok e.second
  | none => .error .undefined

/-- `MapNode::insert(const key_type& key, std::unique_ptr<Node> node)`. -/
def MapNode.insert (self : MapNode Node) (key : key_type) (node : unique_ptr Node) :
    InsertCall Node :=
  if node.isNone then
    { self := self, node := node, ret := .error (.thrown (.logic_error "Passed node is nullptr")) }
  else
    let insert := stl.emplace stl.ordered self.m_nodes key ({} : KeyValuePair Node)
    if insert.2.2 then
      { self := ⟨stl.put insert.1 insert.2.1 ⟨insert.2.1, node⟩⟩, node := none, ret := .ok insert.2 }
    else
      { self := ⟨insert.1⟩, node := node, ret := .ok insert.2 }

/-- `MapNode::empty()`. -/
def MapNode.empty (self : MapNode Node) : Bool :=
  self.m_nodes.isEmpty

/-- `MapNode::size()`. -/
def MapNode.size (self : MapNode Node) : Nat :=
  self.m_nodes.length

/-- `MapNode::find(const key_type& key) const`. -/
def MapNode.find (self : MapNode Node) (key : key_type) : stl.iterator :=
  stl.find self.m_nodes key

/-- `MapNode::find(const key_type& key)`, the overload on a mutable object:
the object after the call and the returned iterator. -/
def MapNode.find_mut (self : MapNode Node) (key : key_type) : MapNode Node × stl.iterator :=
  (self, stl.find self.m_nodes key)

/-- `MapNode::erase(const key_type& key)`: the object after the call and the returned count. -/
def MapNode.erase (self : MapNode Node) (key : key_type) : MapNode Node × Nat :=
  (⟨(stl.erase self.m_nodes key).1⟩, (stl.erase self.m_nodes key).2)

/-- `MapNode::clear()`. -/
def MapNode.clear (_self : MapNode Node) : MapNode Node :=
  ⟨[]⟩

/-- An entry as `insert` leaves it: the key pointer points to the key of the
element the entry is stored in, and the node pointer is not null. -/
def KeyValuePair.stored (e : stl.node (KeyValuePair Node)) : Prop :=
  e.second.m_key = some e.addr ∧ e.second.m_value.isSome = true

/-- The node stored under a key, if any. -/
def MapNode.lookup (self : MapNode Node) (key : key_type) : Option Node :=
  (self.m_nodes.find? (fun e => e.first == key)).bind (fun e => e.second.m_value)

/-- The map after one call. -/
def MapNode.apply (self : MapNode Node) : Op Node → MapNode Node
  | .insert key node => (self.insert key node).self
  | .erase key => (self.erase key).1
  | .clear => self.clear

/-- The map a default-constructed `MapNode` becomes by a sequence of calls. -/
def MapNode.run (ops : List (Op Node)) : MapNode Node :=
  ops.foldl MapNode.apply {}

/-- The call `m.insert(key, std::move(p))` seen from the caller that holds the
handle `p`: the parameter `node` is move-constructed from `p`, which leaves `p`
null; when the call ends the parameter is destroyed, and its destructor deletes
the object it still holds. -/
structure MovedInsert (Node : Type) where
  /-- the call itself -/
  call : InsertCall Node
  /-- the caller's handle after the call -/
  p : unique_ptr Node
  /-- the objects deleted by the destructor of the parameter -/
  deleted : List Node

/-- The call `self.insert(key, std::move(p))`. -/
def MapNode.insert_moved (self : MapNode Node) (key : key_type) (p : unique_ptr Node) :
    MovedInsert Node :=
  let call := self.insert key p
  { call := call, p := none, deleted := call.node.toList }

end tree

/-! ## `MapNode` of `cpp/include/mad/interfaces/tree/mapnode.hpp` -/

namespace cpp

/-- `MapNode::KeyValuePair`: `key_type m_key` (a copy of the key) and
`std::unique_ptr<Node> m_value`. -/
structure KeyValuePair (Node : Type) where
  m_key : key_type := ""
  m_value : unique_ptr Node := none
  deriving DecidableEq

/-- `class MapNode`, with its one data member
`std::unordered_map<key_type, KeyValuePair> m_nodes`. -/
structure MapNode (Node : Type) where
  m_nodes : List (stl.node (KeyValuePair Node)) := []
  deriving DecidableEq

/-- What a call of `MapNode::insert` leaves behind. -/
structure InsertCall (Node : Type) where
  /-- the object after the call -/
  self : MapNode Node
  /-- the by-value parameter `node` when the call ends -/
  node : unique_ptr Node
  /-- the returned `std::pair<iterator, bool>`, or how the call failed -/
  ret : Except Fault (stl.iterator × Bool)
  deriving DecidableEq

variable {Node : Type}

/-- `KeyValuePair::key()`: `return m_key;`. -/
def KeyValuePair.key (self : KeyValuePair Node) : key_type :=
  self.m_key

/-- `KeyValuePair::value()`: `return *m_value;`. -/
def KeyValuePair.value (self : KeyValuePair Node) : Except Fault Node :=
  unique_ptr.deref self.m_value

/-- `MapNode::begin()`. -/
def MapNode.begin (self : MapNode Node) : stl.iterator :=
  stl.begin self.m_nodes

/-- `MapNode::end()`. -/
def MapNode.end_ (_self : MapNode Node) : stl.iterator :=
  none

/-- `Iterator::operator*`: `return m_it->second;`. -/
def MapNode.deref (self : MapNode Node) (it : stl.iterator) : Except Fault (KeyValuePair Node) :=
  match stl.get self.m_nodes it with
  | some e => .ok e.second
  | none => .error .undefined

/-- `MapNode::insert(const key_type& key, std::unique_ptr<Node> node)`.  The
iteration order of `std::unordered_map` is unspecified: `bucket` is the
position a new element takes in it, and nothing is assumed of it. -/
def MapNode.insert (bucket : key_type → List key_type → Nat) (self : MapNode Node)
    (key : key_type) (node : unique_ptr Node) : InsertCall Node :=
  if node.isNone then
    { self := self, node := node, ret := .error (.thrown (.logic_error "Passed node is nullptr")) }
  else
    let insert := stl.emplace bucket self.m_nodes key ({} : KeyValuePair Node)
    if insert.2.2 then
      match stl.get insert.1 insert.2.1 with
      | some e =>
        { self := ⟨stl.put insert.1 insert.2.1 ⟨e.first, node⟩⟩, node := none, ret := .ok insert.2 }
      | none => { self := ⟨insert.1⟩, node := node, ret := .error .undefined }
    else
      { self := ⟨insert.1⟩, node := node, ret := .ok insert.2 }

/-- `MapNode::empty()`. -/
def MapNode.empty (self : MapNode Node) : Bool :=
  self.m_nodes.isEmpty

/-- `MapNode::size()`. -/
def MapNode.size (self : MapNode Node) : Nat :=
  self.m_nodes.length

/-- `MapNode::find(const key_type& key) const`. -/
def MapNode.find (self : MapNode Node) (key : key_type) : stl.iterator :=
  stl.find self.m_nodes key

/-- `MapNode::erase(const key_type& key)`: the object after the call and the returned count. -/
def MapNode.erase (self : MapNode Node) (key : key_type) : MapNode Node × Nat :=
  (⟨(stl.erase self.m_nodes key).1⟩, (stl.erase self.m_nodes key).2)

/-- `MapNode::clear()`. -/
def MapNode.clear (_self : MapNode Node) : MapNode Node :=
  ⟨[]⟩

/-- An entry as `insert` leaves it: the key copy equals the key of the element
the entry is stored in, and the node pointer is not null. -/
def KeyValuePair.stored (e : stl.node (KeyValuePair Node)) : Prop :=
  e.second.m_key = e.first ∧ e.second.m_value.isSome = true

/-- The node stored under a key, if any. -/
def MapNode.lookup (self : MapNode Node) (key : key_type) : Option Node :=
  (self.m_nodes.find? (fun e => e.first == key)).bind (fun e => e.second.m_value)

/-- The map after one call. -/
def MapNode.apply (bucket : key_type → List key_type → Nat) (self : MapNode Node) :
    Op Node → MapNode Node
  | .insert key node => (self.insert bucket key node).self
  | .erase key => (self.erase key).1
  | .clear => self.clear

/-- The map a default-constructed `MapNode` becomes by a sequence of calls. -/
def MapNode.run (bucket : key_type → List key_type → Nat) (ops : List (Op Node)) :
    MapNode Node :=
  ops.foldl (MapNode.apply bucket) {}

end cpp

/-! ## `ListNode` of `tree/include/mad/interfaces/tree/listnode.hpp` (and of `tree.hpp`) -/

namespace tree

/-- `class ListNode`, with its one data member
`std::vector<std::unique_ptr<Node>> m_nodes` (a `vector (unique_ptr Node)`,
written out). -/
structure ListNode (Node : Type) where
  m_nodes : List (Option Node) := []
  deriving DecidableEq

/-- What a call of `ListNode::add` leaves behind. -/
structure AddCall (Node : Type) where
  /-- the object after the call -/
  self : ListNode Node
  /-- the by-value parameter `node` when the call ends -/
  node : unique_ptr Node
  /-- normal return, or how the call failed -/
  ret : Except Fault Unit
  deriving DecidableEq

variable {Node : Type}

/-- `ListNode::begin()`: a vector iterator is the position it designates. -/
def ListNode.begin (_self : ListNode Node) : Nat :=
  0

/-- `ListNode::end()`. -/
def ListNode.end_ (self : ListNode Node) : Nat :=
  self.m_nodes.length

/-- `Iterator::operator*`: `return *m_it->get();`.  Undefined for a position
that holds no element and for an element that is the null pointer. -/
def ListNode.deref (self : ListNode Node) (it : Nat) : Except Fault Node :=
  match self.m_nodes[it]? with
  | some p => unique_ptr.deref p
  | none => .error .undefined

/-- `ListNode::operator[](size_t pos)`: `m_nodes[pos].get()`, `assert(node)`, `*node`. -/
def ListNode.index (self : ListNode Node) (pos : Nat) : ListNode Node × Except Fault Node :=
  match self.m_nodes[pos]? with
  | none => (self, .error .undefined)
  | some none => (self, .error .assert_failed)
  | some (some node) => (self, .ok node)

/-- `ListNode::at(size_t pos)`: `m_nodes.at(pos).get()`, `assert(node)`, `*node`.
The object after the call and the node referred to, or how the call failed. -/
def ListNode.at (self : ListNode Node) (pos : Nat) : ListNode Node × Except Fault Node :=
  if pos < self.m_nodes.length then
    match self.m_nodes[pos]? with
    | some (some node) => (self, .ok node)
    | _ => (self, .error .assert_failed)
  else
    (self, .error (.thrown .out_of_range))

/-- `ListNode::size()`. -/
def ListNode.size (self : ListNode Node) : Nat :=
  self.m_nodes.length

/-- `ListNode::add(std::unique_ptr<Node> node)`. -/
def ListNode.add (self : ListNode Node) (node : unique_ptr Node) : AddCall Node :=
  if node.isNone then
    { self := self, node := node, ret := .error (.thrown (.logic_error "Passed node is nullptr")) }
  else
    { self := ⟨self.m_nodes ++ [node]⟩, node := none, ret := .ok () }

/-- The loop `for (it = first; it != end(); ++it) visit(*it);`, run for at most
`fuel` tests of its condition: the nodes visited, or the fault of the first
undefined dereference; `none` when the fuel does not suffice. -/
def ListNode.visit (self : ListNode Node) : Nat → Nat → Option (Except Fault (List Node))
  | 0, _ => none
  | fuel + 1, it =>
    if it = self.end_ then some (.ok [])
    else
      match self.deref it with
      | .error f => some (.error f)
      | .ok node =>
        match self.visit fuel (it + 1) with
        | some (.ok nodes) => some (.ok (node :: nodes))
        | r => r

/-- The list after a sequence of `add` calls on a default-constructed `ListNode`. -/
def ListNode.run (nodes : List (unique_ptr Node)) : ListNode Node :=
  nodes.foldl (fun l node => (l.add node).self) {}

end tree

/-! ## `List` of `cpp/include/mad/interfaces/container/list.hpp` -/

namespace container

/-- An invocation of one of the two signals of `List`, with its arguments.  A
`const_iterator` of the vector is the position it designates. -/
inductive invocation (ItemT : Type) where
  | itemAboutToBeInserted (item : ItemT) (it : Nat)
  | itemInserted (it : Nat)
  deriving DecidableEq

/-- An invocation of a signal together with the items the list holds while the
slots connected to the signal run. -/
structure emission (ItemT : Type) where
  call : invocation ItemT
  m_items : vector ItemT
  deriving DecidableEq

/-- `class List<ItemT>`, with its data member `std::vector<ItemT> m_items`. -/
structure List (ItemT : Type) where
  m_items : vector ItemT := []
  deriving DecidableEq

end container

variable {ItemT : Type}

/-- `List::begin()`. -/
def container.List.begin (_self : container.List ItemT) : Nat :=
  0

/-- `List::end()`. -/
def container.List.end_ (self : container.List ItemT) : Nat :=
  self.m_items.length

/-- `List::size()`. -/
def container.List.size (self : container.List ItemT) : Nat :=
  self.m_items.length

/-- `List::front()`: undefined on an empty list. -/
def container.List.front (self : container.List ItemT) : Except Fault ItemT :=
  match self.m_items.head? with
  | some x => .ok x
  | none => .error .undefined

/-- `List::back()`: undefined on an empty list. -/
def container.List.back (self : container.List ItemT) : Except Fault ItemT :=
  match self.m_items.getLast? with
  | some x => .ok x
  | none => .error .undefined

/-- `List::push_back(const ItemT& item)`: the list after the call and the
signal invocations of the call, in order. -/
def container.List.push_back (self : container.List ItemT) (item : ItemT) :
    container.List ItemT × vector (container.emission ItemT) :=
  let e1 : container.emission ItemT := ⟨.itemAboutToBeInserted item self.end_, self.m_items⟩
  let self1 : container.List ItemT := ⟨self.m_items ++ [item]⟩
  let e2 : container.emission ItemT := ⟨.itemInserted (self1.end_ - 1), self1.m_items⟩
  (self1, [e1, e2])

/-- `*it` for an iterator of `m_items`: undefined for a position that holds no item. -/
def container.List.deref (self : container.List ItemT) (it : Nat) : Except Fault ItemT :=
  match self.m_items[it]? with
  | some x => .ok x
  | none => .error .undefined

/-- The loop `for (it = first; it != end(); ++it) visit(*it);` over a `List`,
run for at most `fuel` tests of its condition: the items visited, or the fault
of the first undefined dereference; `none` when the fuel does not suffice. -/
def container.List.visit (self : container.List ItemT) :
    Nat → Nat → Option (Except Fault (vector ItemT))
  | 0, _ => none
  | fuel + 1, it =>
    if it = self.end_ then some (.ok [])
    else
      match self.deref it with
      | .error f => some (.error f)
      | .ok item =>
        match container.List.visit self fuel (it + 1) with
        | some (.ok items) => some (.ok (item :: items))
        | r => r

/-! ## The iterators of `ListNode` -/

/-- `ListNode::Iterator` and `ListNode::ConstIterator`, which differ in
constness only: the wrapped vector iterator `m_it`, as the position it
designates counted from `m_nodes.begin()`. -/
structure tree.ListNode.Iterator where
  m_it : Int
  deriving DecidableEq

/-- The conversion of a `size_t` to the signed `difference_type`, both 64 bits
wide: the values from `2 ^ 63` on become negative. -/
def size_t_to_difference_type (n : Nat) : Int :=
  if n % 2 ^ 64 < 2 ^ 63 then ((n % 2 ^ 64 : Nat) : Int)
  else ((n % 2 ^ 64 : Nat) : Int) - 2 ^ 64

/-- The iterator at position `pos` of the vector of `l`.  The iterators into the
vector are the positions from `begin()` to `end()`; forming an iterator before
`begin()` or behind `end()` is undefined. -/
def tree.ListNode.iterator_at {Node : Type} (l : tree.ListNode Node) (pos : Int) :
    Except Fault tree.ListNode.Iterator :=
  if 0 ≤ pos ∧ pos ≤ (l.m_nodes.length : Int) then .ok ⟨pos⟩ else .error .undefined

/-- `Iterator::operator++()`: `++m_it`, for an iterator into the list `l`. -/
def tree.ListNode.Iterator.inc {Node : Type} (self : tree.ListNode.Iterator)
    (l : tree.ListNode Node) : Except Fault tree.ListNode.Iterator :=
  l.iterator_at (self.m_it + 1)

/-- `Iterator::operator--()`: `--m_it`, for an iterator into the list `l`. -/
def tree.ListNode.Iterator.dec {Node : Type} (self : tree.ListNode.Iterator)
    (l : tree.ListNode Node) : Except Fault tree.ListNode.Iterator :=
  l.iterator_at (self.m_it - 1)

/-- `Iterator::operator+(difference_type n)`: `Iterator(m_it+n)`, for an
iterator into the list `l`. -/
def tree.ListNode.Iterator.plus {Node : Type} (self : tree.ListNode.Iterator)
    (l : tree.ListNode Node) (n : Int) : Except Fault tree.ListNode.Iterator :=
  l.iterator_at (self.m_it + n)

/-- `Iterator::operator-(difference_type n)`: `Iterator(m_it-n)`, for an
iterator into the list `l`. -/
def tree.ListNode.Iterator.minus {Node : Type} (self : tree.ListNode.Iterator)
    (l : tree.ListNode Node) (n : Int) : Except Fault tree.ListNode.Iterator :=
  l.iterator_at (self.m_it - n)

/-- `Iterator::operator==`: `m_it == other.m_it`. -/
def tree.ListNode.Iterator.eq (self other : tree.ListNode.Iterator) : Bool :=
  decide (self.m_it = other.m_it)

/-- `Iterator::operator!=`: `m_it != other.m_it`. -/
def tree.ListNode.Iterator.ne (self other : tree.ListNode.Iterator) : Bool :=
  decide (self.m_it ≠ other.m_it)

/-- `Iterator::operator<`: `m_it < other.m_it`. -/
def tree.ListNode.Iterator.lt (self other : tree.ListNode.Iterator) : Bool :=
  decide (self.m_it < other.m_it)

/-- `Iterator::operator>`: `m_it > other.m_it`. -/
def tree.ListNode.Iterator.gt (self other : tree.ListNode.Iterator) : Bool :=
  decide (self.m_it > other.m_it)

/-- `Iterator::operator<=`: `m_it <= other.m_it`. -/
def tree.ListNode.Iterator.le (self other : tree.ListNode.Iterator) : Bool :=
  decide (self.m_it ≤ other.m_it)

/-- `Iterator::operator>=`: `m_it >= other.m_it`. -/
def tree.ListNode.Iterator.ge (self other : tree.ListNode.Iterator) : Bool :=
  decide (self.m_it ≥ other.m_it)

/-- `Iterator::operator*`: `return *m_it->get();`, for an iterator into the
list `l`.  Undefined before the first position, at or behind `end()`, and for a
slot that is the null pointer. -/
def tree.ListNode.Iterator.star {Node : Type} (self : tree.ListNode.Iterator)
    (l : tree.ListNode Node) : Except Fault Node :=
  if 0 ≤ self.m_it then l.deref self.m_it.toNat else .error .undefined

/-- `Iterator::operator[](size_t n)`: `return *m_it[n];`.  The subscript of the
vector iterator takes a `difference_type`, to which `n` is converted, and
`m_it[n]` is the slot `*(m_it + n)`. -/
def tree.ListNode.Iterator.subscript {Node : Type} (self : tree.ListNode.Iterator)
    (l : tree.ListNode Node) (n : Nat) : Except Fault Node :=
  match self.plus l (size_t_to_difference_type n) with
  | .ok it => it.star l
  | .error f => .error f

/-! ## Iteration over a `MapNode` -/

/-- Model of `++it` for a node based container: the iterator to the element
that follows in the iteration order, `end()` behind the last element.  `none`
when `it` designates no element, where `++it` is undefined. -/
def stl.next {V : Type} (s : List (stl.node V)) (it : stl.iterator) : Option stl.iterator :=
  match it with
  | none => none
  | some a =>
    match s.dropWhile (fun e => !(e.addr == a)) with
    | [] => none
    | _ :: rest => some (stl.begin rest)

/-- The loop `for (it = first; it != end(); ++it) visit(*it);` over a `MapNode`,
run for at most `fuel` tests of its condition: the entries visited, or the
fault of the first undefined step; `none` when the fuel does not suffice. -/
def tree.MapNode.visit {Node : Type} (self : tree.MapNode Node) :
    Nat → stl.iterator → Option (Except Fault (List (tree.KeyValuePair Node)))
  | 0, _ => none
  | fuel + 1, it =>
    if it = self.end_ then some (.ok [])
    else
      match self.deref it with
      | .error f => some (.error f)
      | .ok kv =>
        match stl.next self.m_nodes it with
        | none => some (.error .undefined)
        | some it2 =>
          match tree.MapNode.visit self fuel it2 with
          | some (.ok kvs) => some (.ok (kv :: kvs))
          | r => r

/-- Whether a call leaves an entry stored under `k` in place: every `insert`
does, and `erase` of another key. -/
def Op.spares {Node : Type} (k : key_type) : Op Node → Bool
  | .insert _ _ => true
  | .erase key => !(key == k)
  | .clear => false

/-! ## The classes derived from `Node` -/

/-- The objects a `std::unique_ptr<Node>` can own in a tree: a payload object
of a collaborator, told by its payload, a `ListNode`, or a `MapNode`. -/
inductive object where
  | leaf (payload : Nat)
  | list (l : tree.ListNode object)
  | map (m : tree.MapNode object)

/-- `dynamic_cast<ListNode*>` of a node. -/
def object.as_list : object → Option (tree.ListNode object)
  | .list l => some l
  | _ => none

/-! ## Calls on the two `MapNode` classes and what a caller sees of them -/

/-- A call of a member function of `MapNode`. -/
inductive Call (Node : Type) where
  | insert (key : key_type) (node : unique_ptr Node)
  | erase (key : key_type)
  | clear
  | find (key : key_type)
  | size
  | empty

/-- What a caller sees of the entry an iterator designates: `none` for `end()`,
else what `key()` and `value()` of the entry return; a fault when the iterator
cannot be dereferenced. -/
abbrev Seen (Node : Type) := Except Fault (Option (Except Fault key_type × Except Fault Node))

/-- What a call returns to the caller.  An iterator is returned as what the
caller sees through it, since the addresses of elements are not comparable
between two containers. -/
inductive Returned (Node : Type) where
  | insert (r : Except Fault (Seen Node × Bool))
  | erase (count : Nat)
  | clear
  | find (entry : Seen Node)
  | size (n : Nat)
  | empty (b : Bool)

/-- What a caller sees through an iterator of the `std::map` class. -/
def tree.MapNode.see {Node : Type} (self : tree.MapNode Node) (it : stl.iterator) : Seen Node :=
  if it = self.end_ then .ok none
  else
    match self.deref it with
    | .ok kv => .ok (some (kv.key self, kv.value))
    | .error f => .error f

/-- One call on the `std::map` class: the map after it and what it returns. -/
def tree.MapNode.call {Node : Type} (self : tree.MapNode Node) :
    Call Node → tree.MapNode Node × Returned Node
  | .insert key node =>
    ((self.insert key node).self,
      .insert (match (self.insert key node).ret with
        | .ok r => .ok ((self.insert key node).self.see r.1, r.2)
        | .error f => .error f))
  | .erase key => ((self.erase key).1, .erase (self.erase key).2)
  | .clear => (self.clear, .clear)
  | .find key => ((self.find_mut key).1, .find ((self.find_mut key).1.see (self.find_mut key).2))
  | .size => (self, .size self.size)
  | .empty => (self, .empty self.empty)

/-- A sequence of calls on the `std::map` class: the map after them and what
they return, in order. -/
def tree.MapNode.calls {Node : Type} (self : tree.MapNode Node) :
    List (Call Node) → tree.MapNode Node × List (Returned Node)
  | [] => (self, [])
  | c :: cs =>
    ((tree.MapNode.calls (self.call c).1 cs).1,
      (self.call c).2 :: (tree.MapNode.calls (self.call c).1 cs).2)

/-- What a caller sees through an iterator of the `std::unordered_map` class. -/
def cpp.MapNode.see {Node : Type} (self : cpp.MapNode Node) (it : stl.iterator) : Seen Node :=
  if it = self.end_ then .ok none
  else
    match self.deref it with
    | .ok kv => .ok (some (.ok kv.key, kv.value))
    | .error f => .error f

/-- One call on the `std::unordered_map` class: the map after it and what it returns. -/
def cpp.MapNode.call {Node : Type} (bucket : key_type → List key_type → Nat)
    (self : cpp.MapNode Node) : Call Node → cpp.MapNode Node × Returned Node
  | .insert key node =>
    ((self.insert bucket key node).self,
      .insert (match (self.insert bucket key node).ret with
        | .ok r => .ok ((self.insert bucket key node).self.see r.1, r.2)
        | .error f => .error f))
  | .erase key => ((self.erase key).1, .erase (self.erase key).2)
  | .clear => (self.clear, .clear)
  | .find key => (self, .find (self.see (self.find key)))
  | .size => (self, .size self.size)
  | .empty => (self, .empty self.empty)

/-- A sequence of calls on the `std::unordered_map` class: the map after them
and what they return, in order. -/
def cpp.MapNode.calls {Node : Type} (bucket : key_type → List key_type → Nat)
    (self : cpp.MapNode Node) : List (Call Node) → cpp.MapNode Node × List (Returned Node)
  | [] => (self, [])
  | c :: cs =>
    ((cpp.MapNode.calls bucket (self.call bucket c).1 cs).1,
      (self.call bucket c).2 :: (cpp.MapNode.calls bucket (self.call bucket c).1 cs).2)

/-- The loop `for (it = first; it != end(); ++it) visit(*it);` over a `MapNode`
of the `std::unordered_map` class, run for at most `fuel` tests of its
condition. -/
def cpp.MapNode.visit {Node : Type} (self : cpp.MapNode Node) :
    Nat → stl.iterator → Option (Except Fault (List (cpp.KeyValuePair Node)))
  | 0, _ => none
  | fuel + 1, it =>
    if it = self.end_ then some (.ok [])
    else
      match self.deref it with
      | .error f => some (.error f)
      | .ok kv =>
        match stl.next self.m_nodes it with
        | none => some (.error .undefined)
        | some it2 =>
          match cpp.MapNode.visit self fuel it2 with
          | some (.ok kvs) => some (.ok (kv :: kvs))
          | r => r

/-! ## What a keyed node returns, read off the calls alone -/

/-- The call that changes the map behind a call, if it is one. -/
def Call.op {Node : Type} : Call Node → Option (Op Node)
  | .insert key node => some (.insert key node)
  | .erase key => some (.erase key)
  | .clear => some .clear
  | .find _ => none
  | .size => none
  | .empty => none

/-- The effect of one call on the number of bound keys, in the words of the
specification: a successful `insert` adds one, an `erase` of a bound key takes
one away, `clear` leaves none. -/
def count_step {Node : Type} (f : key_type → Option Node) (n : Nat) : Op Node → Nat
  | .insert key node => if (f key).isNone && node.isSome then n + 1 else n
  | .erase key => if (f key).isNone then n else n - 1
  | .clear => 0

/-- What a call returns on a keyed node that binds the keys as `f` does and
holds `n` entries, in the words of the specification. -/
def returned_spec {Node : Type} (f : key_type → Option Node) (n : Nat) :
    Call Node → Returned Node
  | .insert _ none => .insert (.error (.thrown (.logic_error "Passed node is nullptr")))
  | .insert key (some x) =>
    .insert (.ok (.ok (some (.ok key, .ok ((f key).getD x))), (f key).isNone))
  | .erase key => .erase (if (f key).isNone then 0 else 1)
  | .clear => .clear
  | .find key => .find (.ok ((f key).map (fun x => (.ok key, .ok x))))
  | .size => .size n
  | .empty => .empty (n == 0)

/-- The bindings after one call. -/
def Call.bind {Node : Type} (f : key_type → Option Node) (c : Call Node) :
    key_type → Option Node :=
  match c.op with
  | some op => bind_step f op
  | none => f

/-- The number of entries after one call. -/
def Call.count {Node : Type} (f : key_type → Option Node) (n : Nat) (c : Call Node) : Nat :=
  match c.op with
  | some op => count_step f n op
  | none => n

/-- What a sequence of calls returns on a keyed node that starts with the
bindings `f` and `n` entries, read off the calls alone; with the bindings and
the number of entries it ends with. -/
def calls_spec {Node : Type} (f : key_type → Option Node) (n : Nat) :
    List (Call Node) → (key_type → Option Node) × Nat × List (Returned Node)
  | [] => (f, n, [])
  | c :: cs =>
    ((calls_spec (c.bind f) (c.count f n) cs).1,
      (calls_spec (c.bind f) (c.count f n) cs).2.1,
      returned_spec f n c :: (calls_spec (c.bind f) (c.count f n) cs).2.2)

end mad.interfaces

/-! # Theorems -/

namespace mad.interfaces

/-! ## Lists of container elements -/

namespace stl

variable {V : Type}

theorem addr_lt_fresh (s : List (node V)) : ∀ e ∈ s, e.addr < fresh s := by
  induction s with
  | nil => intro e he; cases he
  | cons x xs ih =>
    intro e he
    have hx : fresh (x :: xs) = max x.addr (fresh xs - 1) + 1 := by
      simp [fresh]
    rcases List.mem_cons.1 he with h | h
    · subst h; rw [hx]; omega
    · have := ih e h
      rw [hx]; omega

theorem fresh_ne_addr (s : List (node V)) {e : node V} (he : e ∈ s) : e.addr ≠ fresh s :=
  Nat.ne_of_lt (addr_lt_fresh s e he)

theorem mem_insertAt {i : Nat} {e x : node V} {s : List (node V)} :
    x ∈ insertAt i e s ↔ x = e ∨ x ∈ s := by
  unfold insertAt
  rw [List.mem_append, List.mem_cons]
  constructor
  · rintro (h | h | h)
    · exact Or.inr (List.mem_of_mem_take h)
    · exact Or.inl h
    · exact Or.inr (List.mem_of_mem_drop h)
  · rintro (h | h)
    · exact Or.inr (Or.inl h)
    · rw [← List.take_append_drop i s, List.mem_append] at h
      rcases h with h | h
      · exact Or.inl h
      · exact Or.inr (Or.inr h)

theorem insertAt_perm (i : Nat) (e : node V) (s : List (node V)) :
    List.Perm (insertAt i e s) (e :: s) := by
  unfold insertAt
  have h := @List.perm_middle _ e (s.take i) (s.drop i)
  rwa [List.take_append_drop] at h

theorem length_insertAt (i : Nat) (e : node V) (s : List (node V)) :
    (insertAt i e s).length = s.length + 1 :=
  (insertAt_perm i e s).length_eq

theorem find?_insertAt_of_false {p : node V → Bool} {i : Nat} {e : node V}
    (s : List (node V)) (he : p e = false) :
    (insertAt i e s).find? p = s.find? p := by
  unfold insertAt
  have h : s.find? p = ((s.take i).find? p).or ((s.drop i).find? p) := by
    rw [← List.find?_append, List.take_append_drop]
  rw [h, List.find?_append, List.find?_cons, he]

theorem find?_insertAt_of_true {p : node V → Bool} {i : Nat} {e : node V}
    (s : List (node V)) (he : p e = true) (hs : ∀ x ∈ s, p x = false) :
    (insertAt i e s).find? p = some e := by
  unfold insertAt
  have h1 : (s.take i).find? p = none := by
    rw [List.find?_eq_none]
    intro x hx
    simp [hs x (List.mem_of_mem_take hx)]
  simp [List.find?_append, List.find?_cons, he, h1]

theorem put_insertAt_fresh (i : Nat) (k : key_type) (v w : V) (s : List (node V)) :
    put (insertAt i ⟨fresh s, k, v⟩ s) (some (fresh s)) w = insertAt i ⟨fresh s, k, w⟩ s := by
  have hmap : ∀ l : List (node V), (∀ e ∈ l, e ∈ s) →
      l.map (fun e => if some e.addr = some (fresh s) then { e with second := w } else e) = l := by
    intro l hl
    conv_rhs => rw [← List.map_id l]
    apply List.map_congr_left
    intro e he
    have := fresh_ne_addr s (hl e he)
    simp [this]
  unfold put insertAt
  rw [List.map_append, List.map_cons, hmap _ (fun e he => List.mem_of_mem_take he),
    hmap _ (fun e he => List.mem_of_mem_drop he)]
  simp

theorem emplace_of_find?_some {place : key_type → List key_type → Nat} {s : List (node V)}
    {key : key_type} {e : node V} (v : V) (h : s.find? (fun e => e.first == key) = some e) :
    emplace place s key v = (s, (some e.addr, false)) := by
  simp [emplace, h]

theorem emplace_of_find?_none {place : key_type → List key_type → Nat} {s : List (node V)}
    {key : key_type} (v : V) (h : s.find? (fun e => e.first == key) = none) :
    emplace place s key v =
      (insertAt (place key (s.map (fun e => e.first))) ⟨fresh s, key, v⟩ s,
        (some (fresh s), true)) := by
  simp [emplace, h]

theorem find?_key_eq_none {s : List (node V)} {k : key_type}
    (h : s.find? (fun e => e.first == k) = none) : k ∉ s.map (fun e => e.first) := by
  rw [List.find?_eq_none] at h
  intro hk
  obtain ⟨e, he, rfl⟩ := List.mem_map.1 hk
  exact h e he (by simp)

theorem WF_nil (good : node V → Prop) : WF good [] := by
  simp [WF]

theorem WF_insertAt {good : node V → Prop} {s : List (node V)} {k : key_type} (i : Nat)
    (v : V) (hs : WF good s) (hk : s.find? (fun e => e.first == k) = none)
    (hv : good ⟨fresh s, k, v⟩) : WF good (insertAt i ⟨fresh s, k, v⟩ s) := by
  obtain ⟨h1, h2, h3⟩ := hs
  refine ⟨?_, ?_, ?_⟩
  · rw [((insertAt_perm i _ s).map _).nodup_iff, List.map_cons, List.nodup_cons]
    exact ⟨find?_key_eq_none hk, h1⟩
  · rw [((insertAt_perm i _ s).map _).nodup_iff, List.map_cons, List.nodup_cons]
    refine ⟨?_, h2⟩
    intro hm
    obtain ⟨e, he, hea⟩ := List.mem_map.1 hm
    exact fresh_ne_addr s he hea
  · intro e he
    rcases mem_insertAt.1 he with h | h
    · subst h; exact hv
    · exact h3 e h

theorem WF_filter {good : node V → Prop} {s : List (node V)} (q : node V → Bool)
    (hs : WF good s) : WF good (s.filter q) := by
  obtain ⟨h1, h2, h3⟩ := hs
  refine ⟨?_, ?_, ?_⟩
  · exact h1.sublist ((List.filter_sublist s).map _)
  · exact h2.sublist ((List.filter_sublist s).map _)
  · intro e he
    exact h3 e (List.mem_of_mem_filter he)

/-- With distinct addresses an element is the one its own address designates. -/
theorem find?_addr_of_mem {s : List (node V)} (h : (s.map (fun e => e.addr)).Nodup)
    {e : node V} (he : e ∈ s) : s.find? (fun x => x.addr == e.addr) = some e := by
  induction s with
  | nil => cases he
  | cons x xs ih =>
    rw [List.map_cons, List.nodup_cons] at h
    rcases List.mem_cons.1 he with hx | hx
    · subst hx; simp
    · have hne : (x.addr == e.addr) = false := by
        rw [beq_eq_false_iff_ne]
        intro hxe
        exact h.1 (hxe ▸ List.mem_map_of_mem (fun e => e.addr) hx)
      rw [List.find?_cons, hne]
      exact ih h.2 hx

theorem get_of_mem {s : List (node V)} (h : (s.map (fun e => e.addr)).Nodup)
    {e : node V} (he : e ∈ s) : get s (some e.addr) = some e := by
  simpa [get] using find?_addr_of_mem h he

theorem find?_key_filter_ne (s : List (node V)) {k k' : key_type} (h : k' ≠ k) :
    (s.filter (fun e => !(e.first == k))).find? (fun e => e.first == k') =
      s.find? (fun e => e.first == k') := by
  induction s with
  | nil => rfl
  | cons x xs ih =>
    by_cases hx : x.first = k
    · have hb : (x.first == k) = true := by simpa using hx
      have hb2 : (x.first == k') = false := by
        rw [beq_eq_false_iff_ne, hx]; exact fun h2 => h h2.symm
      rw [List.filter_cons, List.find?_cons, hb2]
      simpa [hb] using ih
    · have hb : (x.first == k) = false := by simpa using hx
      rw [List.filter_cons]
      simp only [hb, Bool.not_false, if_true, List.find?_cons]
      rw [ih]

theorem find?_key_filter_self (s : List (node V)) (k : key_type) :
    (s.filter (fun e => !(e.first == k))).find? (fun e => e.first == k) = none := by
  rw [List.find?_eq_none]
  intro x hx
  have := (List.mem_filter.1 hx).2
  simpa using this

theorem length_filter_key_add (s : List (node V)) (k : key_type) :
    (s.filter (fun e => !(e.first == k))).length + (s.filter (fun e => e.first == k)).length
      = s.length := by
  induction s with
  | nil => rfl
  | cons x xs ih =>
    by_cases hx : x.first = k
    · simp [List.filter_cons, hx] at ih ⊢; omega
    · simp [List.filter_cons, hx] at ih ⊢; omega

theorem length_filter_key_of_none {s : List (node V)} {k : key_type}
    (h : s.find? (fun e => e.first == k) = none) :
    (s.filter (fun e => e.first == k)).length = 0 := by
  rw [List.length_eq_zero, List.filter_eq_nil_iff]
  intro x hx
  exact List.find?_eq_none.1 h x hx

theorem length_filter_key_of_some {s : List (node V)} {k : key_type} {e : node V}
    (hn : (s.map (fun e => e.first)).Nodup)
    (h : s.find? (fun e => e.first == k) = some e) :
    (s.filter (fun e => e.first == k)).length = 1 := by
  induction s with
  | nil => simp at h
  | cons x xs ih =>
    rw [List.map_cons, List.nodup_cons] at hn
    by_cases hx : x.first = k
    · have hxs : xs.find? (fun e => e.first == k) = none := by
        rw [List.find?_eq_none]
        intro y hy hyk
        apply hn.1
        have : y.first = x.first := by rw [hx]; simpa using hyk
        rw [← this]
        exact List.mem_map_of_mem (fun e => e.first) hy
      simp [List.filter_cons, hx, length_filter_key_of_none hxs]
    · have h2 : xs.find? (fun e => e.first == k) = some e := by
        simpa [List.find?_cons, hx] using h
      simp [List.filter_cons, hx, ih hn.2 h2]

theorem get_insertAt_new (i : Nat) (k : key_type) (v : V) (s : List (node V)) :
    get (insertAt i ⟨fresh s, k, v⟩ s) (some (fresh s)) = some ⟨fresh s, k, v⟩ := by
  simp only [get, Option.some_bind]
  apply find?_insertAt_of_true
  · simp
  · intro x hx
    simpa using fresh_ne_addr _ hx

theorem get_insertAt_old (i : Nat) (e : node V) (s : List (node V)) {a : Nat}
    (h : e.addr ≠ a) : get (insertAt i e s) (some a) = get s (some a) := by
  simp only [get, Option.some_bind]
  exact find?_insertAt_of_false _ (by simpa using h)

theorem key_eq_of_find? {s : List (node V)} {k : key_type} {e : node V}
    (h : s.find? (fun e => e.first == k) = some e) : e.first = k := by
  simpa using List.find?_some h

theorem erase_count {good : node V → Prop} {s : List (node V)} (hs : WF good s)
    (k : key_type) : (erase s k).2 = if find s k = none then 0 else 1 := by
  cases hf : s.find? (fun e => e.first == k) with
  | none => simp [erase, find, hf, length_filter_key_of_none hf]
  | some e => simp [erase, find, hf, length_filter_key_of_some hs.1 hf]

theorem find_erase_self (s : List (node V)) (k : key_type) : find (erase s k).1 k = none := by
  simp [erase, find, find?_key_filter_self]

theorem find_erase_ne (s : List (node V)) {k k' : key_type} (h : k' ≠ k) :
    find (erase s k).1 k' = find s k' := by
  simp only [erase, find, find?_key_filter_ne s h]

theorem get_erase_of_find? {good : node V → Prop} {s : List (node V)} (hs : WF good s)
    {k k' : key_type} (h : k' ≠ k) {e : node V}
    (he : s.find? (fun e => e.first == k') = some e) :
    get (erase s k).1 (some e.addr) = some e := by
  have hmem : e ∈ s.filter (fun e => !(e.first == k)) := by
    rw [List.mem_filter]
    refine ⟨List.mem_of_find?_eq_some he, ?_⟩
    have := key_eq_of_find? he
    simpa [this] using h
  exact get_of_mem (WF_filter _ hs).2.1 hmem

theorem get_find_erase_ne {good : node V → Prop} {s : List (node V)} (hs : WF good s)
    {k k' : key_type} (h : k' ≠ k) :
    get (erase s k).1 (find (erase s k).1 k') = get s (find s k') := by
  rw [find_erase_ne s h]
  cases he : s.find? (fun e => e.first == k') with
  | none => simp [find, he, get]
  | some e =>
    have h1 : find s k' = some e.addr := by simp [find, he]
    rw [h1, get_erase_of_find? hs h he, get_of_mem hs.2.1 (List.mem_of_find?_eq_some he)]

theorem get_find_of_find? {good : node V → Prop} {s : List (node V)} (hs : WF good s)
    {k : key_type} {e : node V} (he : s.find? (fun e => e.first == k) = some e) :
    find s k = some e.addr ∧ get s (find s k) = some e := by
  have h1 : find s k = some e.addr := by simp [find, he]
  rw [h1]
  exact ⟨rfl, get_of_mem hs.2.1 (List.mem_of_find?_eq_some he)⟩

theorem get_find_eq_some {s : List (node V)} {k : key_type} {e : node V}
    (h : get s (find s k) = some e) :
    ∃ x, s.find? (fun e => e.first == k) = some x := by
  cases hf : s.find? (fun e => e.first == k) with
  | none => simp [find, hf, get] at h
  | some x => exact ⟨x, rfl⟩

end stl

/-! ## The three outcomes of `MapNode::insert` -/

section insert_outcomes

variable {Node : Type}

theorem find_eq_none_iff {V : Type} (s : List (stl.node V)) (k : key_type) :
    stl.find s k = none ↔ s.find? (fun e => e.first == k) = none := by
  simp [stl.find]

theorem tree_insert_null (m : tree.MapNode Node) (k : key_type) :
    m.insert k none =
      ⟨m, none, .error (.thrown (.logic_error "Passed node is nullptr"))⟩ := by
  simp [tree.MapNode.insert]

theorem tree_insert_present {m : tree.MapNode Node} {k : key_type}
    {e : stl.node (tree.KeyValuePair Node)} (n : Node)
    (h : m.m_nodes.find? (fun e => e.first == k) = some e) :
    m.insert k (some n) = ⟨m, some n, .ok (some e.addr, false)⟩ := by
  simp [tree.MapNode.insert, stl.emplace_of_find?_some _ h]

theorem tree_insert_absent {m : tree.MapNode Node} {k : key_type} (n : Node)
    (h : m.m_nodes.find? (fun e => e.first == k) = none) :
    m.insert k (some n) =
      ⟨⟨stl.insertAt (stl.ordered k (m.m_nodes.map (fun e => e.first)))
          ⟨stl.fresh m.m_nodes, k, ⟨some (stl.fresh m.m_nodes), some n⟩⟩ m.m_nodes⟩,
        none, .ok (some (stl.fresh m.m_nodes), true)⟩ := by
  simp [tree.MapNode.insert, stl.emplace_of_find?_none _ h, stl.put_insertAt_fresh]

theorem cpp_insert_null (bucket : key_type → List key_type → Nat) (m : cpp.MapNode Node)
    (k : key_type) :
    m.insert bucket k none =
      ⟨m, none, .error (.thrown (.logic_error "Passed node is nullptr"))⟩ := by
  simp [cpp.MapNode.insert]

theorem cpp_insert_present (bucket : key_type → List key_type → Nat) {m : cpp.MapNode Node}
    {k : key_type} {e : stl.node (cpp.KeyValuePair Node)} (n : Node)
    (h : m.m_nodes.find? (fun e => e.first == k) = some e) :
    m.insert bucket k (some n) = ⟨m, some n, .ok (some e.addr, false)⟩ := by
  simp [cpp.MapNode.insert, stl.emplace_of_find?_some _ h]

theorem cpp_insert_absent (bucket : key_type → List key_type → Nat) {m : cpp.MapNode Node}
    {k : key_type} (n : Node)
    (h : m.m_nodes.find? (fun e => e.first == k) = none) :
    m.insert bucket k (some n) =
      ⟨⟨stl.insertAt (bucket k (m.m_nodes.map (fun e => e.first)))
          ⟨stl.fresh m.m_nodes, k, ⟨k, some n⟩⟩ m.m_nodes⟩,
        none, .ok (some (stl.fresh m.m_nodes), true)⟩ := by
  have hget : stl.get (stl.insertAt (bucket k (m.m_nodes.map (fun e => e.first)))
      ⟨stl.fresh m.m_nodes, k, ({} : cpp.KeyValuePair Node)⟩ m.m_nodes)
      (some (stl.fresh m.m_nodes)) = some ⟨stl.fresh m.m_nodes, k, {}⟩ := by
    simp only [stl.get, Option.some_bind]
    apply stl.find?_insertAt_of_true
    · simp
    · intro x hx
      simpa using stl.fresh_ne_addr _ hx
  simp [cpp.MapNode.insert, stl.emplace_of_find?_none _ h, hget, stl.put_insertAt_fresh]

end insert_outcomes

/-! ## Maps reached by a history of calls -/

section histories

variable {Node : Type}

theorem tree_apply_WF {m : tree.MapNode Node}
    (h : stl.WF tree.KeyValuePair.stored m.m_nodes) (op : Op Node) :
    stl.WF tree.KeyValuePair.stored (m.apply op).m_nodes := by
  cases op with
  | insert key node =>
    cases node with
    | none => simpa [tree.MapNode.apply, tree_insert_null] using h
    | some n =>
      cases hf : m.m_nodes.find? (fun e => e.first == key) with
      | some e => simpa [tree.MapNode.apply, tree_insert_present n hf] using h
      | none =>
        simp only [tree.MapNode.apply, tree_insert_absent n hf]
        exact stl.WF_insertAt _ _ h hf ⟨rfl, rfl⟩
  | erase key => exact stl.WF_filter _ h
  | clear => exact stl.WF_nil _

theorem tree_foldl_WF (ops : List (Op Node)) :
    ∀ m : tree.MapNode Node, stl.WF tree.KeyValuePair.stored m.m_nodes →
      stl.WF tree.KeyValuePair.stored (ops.foldl tree.MapNode.apply m).m_nodes := by
  induction ops with
  | nil => intro m h; exact h
  | cons op ops ih => intro m h; exact ih _ (tree_apply_WF h op)

theorem tree_run_WF (ops : List (Op Node)) :
    stl.WF tree.KeyValuePair.stored (tree.MapNode.run ops).m_nodes :=
  tree_foldl_WF ops _ (stl.WF_nil _)

theorem tree_apply_lookup {m : tree.MapNode Node} {f : key_type → Option Node}
    (h : stl.WF tree.KeyValuePair.stored m.m_nodes) (hf : ∀ k, m.lookup k = f k)
    (op : Op Node) (k : key_type) : (m.apply op).lookup k = bind_step f op k := by
  cases op with
  | insert key node =>
    cases node with
    | none =>
      simp only [tree.MapNode.apply, tree_insert_null, bind_step]
      split
      · next hk => subst hk; rw [hf]; cases f k <;> rfl
      · exact hf k
    | some n =>
      cases hfind : m.m_nodes.find? (fun e => e.first == key) with
      | some e =>
        have hval : e.second.m_value.isSome = true :=
          (h.2.2 e (List.mem_of_find?_eq_some hfind)).2
        have hkey : f key = e.second.m_value := by
          rw [← hf key]; simp [tree.MapNode.lookup, hfind]
        simp only [tree.MapNode.apply, tree_insert_present n hfind, bind_step]
        split
        · next hk =>
          subst hk; rw [hf, hkey]
          cases hv : e.second.m_value with
          | none => simp [hv] at hval
          | some x => rfl
        · exact hf k
      | none =>
        have hkey : f key = none := by
          rw [← hf key]; simp [tree.MapNode.lookup, hfind]
        simp only [tree.MapNode.apply, tree_insert_absent n hfind, bind_step]
        split
        · next hk =>
          subst hk
          rw [hkey]
          simp only [tree.MapNode.lookup]
          rw [stl.find?_insertAt_of_true _ (by simp)
            (fun x hx => by simpa using List.find?_eq_none.1 hfind x hx)]
          rfl
        · next hk =>
          rw [← hf k]
          simp only [tree.MapNode.lookup]
          rw [stl.find?_insertAt_of_false _ (by simpa using fun h2 : key = k => hk h2.symm)]
  | erase key =>
    simp only [tree.MapNode.apply, tree.MapNode.erase, stl.erase, bind_step, tree.MapNode.lookup]
    split
    · next hk => subst hk; rw [stl.find?_key_filter_self]; rfl
    · next hk => rw [stl.find?_key_filter_ne _ hk]; exact hf k
  | clear => rfl

theorem tree_foldl_lookup (ops : List (Op Node)) :
    ∀ (m : tree.MapNode Node) (f : key_type → Option Node),
      stl.WF tree.KeyValuePair.stored m.m_nodes → (∀ k, m.lookup k = f k) →
      ∀ k, (ops.foldl tree.MapNode.apply m).lookup k = ops.foldl bind_step f k := by
  induction ops with
  | nil => intro m f _ hf; exact hf
  | cons op ops ih =>
    intro m f h hf
    exact ih _ _ (tree_apply_WF h op) (tree_apply_lookup h hf op)

theorem tree_run_lookup (ops : List (Op Node)) (k : key_type) :
    (tree.MapNode.run ops).lookup k = bound ops k :=
  tree_foldl_lookup ops _ _ (stl.WF_nil _) (fun _ => rfl) k

theorem cpp_apply_WF (bucket : key_type → List key_type → Nat) {m : cpp.MapNode Node}
    (h : stl.WF cpp.KeyValuePair.stored m.m_nodes) (op : Op Node) :
    stl.WF cpp.KeyValuePair.stored (m.apply bucket op).m_nodes := by
  cases op with
  | insert key node =>
    cases node with
    | none => simpa [cpp.MapNode.apply, cpp_insert_null] using h
    | some n =>
      cases hf : m.m_nodes.find? (fun e => e.first == key) with
      | some e => simpa [cpp.MapNode.apply, cpp_insert_present bucket n hf] using h
      | none =>
        simp only [cpp.MapNode.apply, cpp_insert_absent bucket n hf]
        exact stl.WF_insertAt _ _ h hf ⟨rfl, rfl⟩
  | erase key => exact stl.WF_filter _ h
  | clear => exact stl.WF_nil _

theorem cpp_foldl_WF (bucket : key_type → List key_type → Nat) (ops : List (Op Node)) :
    ∀ m : cpp.MapNode Node, stl.WF cpp.KeyValuePair.stored m.m_nodes →
      stl.WF cpp.KeyValuePair.stored (ops.foldl (cpp.MapNode.apply bucket) m).m_nodes := by
  induction ops with
  | nil => intro m h; exact h
  | cons op ops ih => intro m h; exact ih _ (cpp_apply_WF bucket h op)

theorem cpp_run_WF (bucket : key_type → List key_type → Nat) (ops : List (Op Node)) :
    stl.WF cpp.KeyValuePair.stored (cpp.MapNode.run bucket ops).m_nodes :=
  cpp_foldl_WF bucket ops _ (stl.WF_nil _)

end histories

/-! ## `MapNode::insert` -/

section insert_claims

variable {Node : Type}

theorem find?_of_find_ne_none {V : Type} {s : List (stl.node V)} {k : key_type}
    (h : stl.find s k ≠ none) :
    ∃ e, s.find? (fun e => e.first == k) = some e ∧ stl.find s k = some e.addr := by
  cases hf : s.find? (fun e => e.first == k) with
  | none => exact absurd ((find_eq_none_iff s k).2 hf) h
  | some e => exact ⟨e, rfl, by simp [stl.find, hf]⟩

/-- C1. `MapNode::insert` with a key that is present and a non-null node is
non-destructive, in the `std::map` class and in the `std::unordered_map` class:
it returns the iterator of the present entry with `inserted = false`, `size()`
is unchanged, the stored elements are the same, and every key is found at the
same iterator with the same entry, whose `key()` reads the same. -/
theorem insert_existing_key_non_destructive
    (bucket : key_type → List key_type → Nat)
    (mt : tree.MapNode Node) (mc : cpp.MapNode Node) (k : key_type) (n : Node)
    (ht : mt.find k ≠ mt.end_) (hc : mc.find k ≠ mc.end_) :
    ((mt.insert k (some n)).ret = .ok (mt.find k, false)
      ∧ (mt.insert k (some n)).self.size = mt.size
      ∧ (mt.insert k (some n)).self = mt
      ∧ ∀ k', (mt.insert k (some n)).self.find k' = mt.find k'
          ∧ (mt.insert k (some n)).self.deref ((mt.insert k (some n)).self.find k')
              = mt.deref (mt.find k')
          ∧ ∀ kv, mt.deref (mt.find k') = .ok kv →
              kv.key (mt.insert k (some n)).self = kv.key mt)
    ∧ ((mc.insert bucket k (some n)).ret = .ok (mc.find k, false)
      ∧ (mc.insert bucket k (some n)).self.size = mc.size
      ∧ (mc.insert bucket k (some n)).self = mc
      ∧ ∀ k', (mc.insert bucket k (some n)).self.find k' = mc.find k'
          ∧ (mc.insert bucket k (some n)).self.deref
                ((mc.insert bucket k (some n)).self.find k')
              = mc.deref (mc.find k')) := by
  obtain ⟨e, he, hfe⟩ := find?_of_find_ne_none ht
  obtain ⟨c, hc1, hfc⟩ := find?_of_find_ne_none hc
  constructor
  · rw [tree_insert_present n he]
    refine ⟨?_, rfl, rfl, fun k' => ⟨rfl, rfl, fun _ _ => rfl⟩⟩
    simp only [tree.MapNode.find]
    rw [hfe]
  · rw [cpp_insert_present bucket n hc1]
    refine ⟨?_, rfl, rfl, fun k' => ⟨rfl, rfl⟩⟩
    simp only [cpp.MapNode.find]
    rw [hfc]

theorem insert_existing_key_non_destructive_witness :
    (tree.MapNode.run [Op.insert "a" (some 1)] : tree.MapNode Nat).find "a"
        ≠ (tree.MapNode.run [Op.insert "a" (some 1)] : tree.MapNode Nat).end_
    ∧ (cpp.MapNode.run (fun _ _ => 0) [Op.insert "a" (some 1)] : cpp.MapNode Nat).find "a"
        ≠ (cpp.MapNode.run (fun _ _ => 0) [Op.insert "a" (some 1)] : cpp.MapNode Nat).end_
    ∧ ((tree.MapNode.run [Op.insert "a" (some 1)] : tree.MapNode Nat).insert "a" (some 2)).ret
        = .ok (some 1, false)
    ∧ ((cpp.MapNode.run (fun _ _ => 0) [Op.insert "a" (some 1)] : cpp.MapNode Nat).insert
          (fun _ _ => 0) "a" (some 2)).self.size = 1 :=
  ⟨by decide, by decide,
    (insert_existing_key_non_destructive (fun _ _ => 0)
      (tree.MapNode.run [Op.insert "a" (some 1)])
      (cpp.MapNode.run (fun _ _ => 0) [Op.insert "a" (some 1)]) "a" 2
      (by decide) (by decide)).1.1,
    (insert_existing_key_non_destructive (fun _ _ => 0)
      (tree.MapNode.run [Op.insert "a" (some 1)])
      (cpp.MapNode.run (fun _ _ => 0) [Op.insert "a" (some 1)]) "a" 2
      (by decide) (by decide)).2.2.1⟩

/-- C3. `MapNode::insert` with a null node throws `std::logic_error` before it
touches the map: the map after the call is the map before it, with the same
`size()` and every key found where it was; no entry for the key is left behind. -/
theorem insert_null_rejected_before_mutation
    (bucket : key_type → List key_type → Nat)
    (mt : tree.MapNode Node) (mc : cpp.MapNode Node) (k : key_type) :
    ((mt.insert k none).ret = .error (.thrown (.logic_error "Passed node is nullptr"))
      ∧ (mt.insert k none).self = mt
      ∧ (mt.insert k none).self.size = mt.size
      ∧ ∀ k', (mt.insert k none).self.find k' = mt.find k'
          ∧ (mt.insert k none).self.deref ((mt.insert k none).self.find k')
              = mt.deref (mt.find k'))
    ∧ ((mc.insert bucket k none).ret = .error (.thrown (.logic_error "Passed node is nullptr"))
      ∧ (mc.insert bucket k none).self = mc
      ∧ (mc.insert bucket k none).self.size = mc.size
      ∧ ∀ k', (mc.insert bucket k none).self.find k' = mc.find k'
          ∧ (mc.insert bucket k none).self.deref ((mc.insert bucket k none).self.find k')
              = mc.deref (mc.find k')) := by
  rw [tree_insert_null, cpp_insert_null]
  exact ⟨⟨rfl, rfl, rfl, fun _ => ⟨rfl, rfl⟩⟩, ⟨rfl, rfl, rfl, fun _ => ⟨rfl, rfl⟩⟩⟩

/-- C2. `MapNode::insert` with a key that is not present and a non-null node,
on any map reached from the empty map: it returns `inserted = true` with an
iterator that is not `end()` and is the one `find(k)` returns afterwards,
`size()` grows by one, the entry found under `k` has `key()` equal to `k` and
`value()` equal to the node, and every other key is found at the same iterator
with the same entry, whose `key()` still reads that key. -/
theorem insert_fresh_key_succeeds (ops : List (Op Node)) (k : key_type) (n : Node)
    (h : (tree.MapNode.run ops).find k = (tree.MapNode.run ops).end_) :
    (∃ it, ((tree.MapNode.run ops).insert k (some n)).ret = .ok (it, true)
        ∧ it ≠ ((tree.MapNode.run ops).insert k (some n)).self.end_
        ∧ ((tree.MapNode.run ops).insert k (some n)).self.find k = it)
    ∧ ((tree.MapNode.run ops).insert k (some n)).self.size = (tree.MapNode.run ops).size + 1
    ∧ (∃ kv, ((tree.MapNode.run ops).insert k (some n)).self.deref
            (((tree.MapNode.run ops).insert k (some n)).self.find k) = .ok kv
        ∧ kv.key ((tree.MapNode.run ops).insert k (some n)).self = .ok k
        ∧ kv.value = .ok n)
    ∧ ∀ k', k' ≠ k →
        ((tree.MapNode.run ops).insert k (some n)).self.find k' = (tree.MapNode.run ops).find k'
        ∧ ((tree.MapNode.run ops).insert k (some n)).self.deref
              (((tree.MapNode.run ops).insert k (some n)).self.find k')
            = (tree.MapNode.run ops).deref ((tree.MapNode.run ops).find k')
        ∧ ∀ kv, (tree.MapNode.run ops).deref ((tree.MapNode.run ops).find k') = .ok kv →
            kv.key ((tree.MapNode.run ops).insert k (some n)).self = .ok k'
            ∧ kv.key (tree.MapNode.run ops) = .ok k' := by
  have hwf := tree_run_WF ops
  generalize tree.MapNode.run ops = m at h hwf ⊢
  have hf : m.m_nodes.find? (fun e => e.first == k) = none :=
    (find_eq_none_iff _ _).1 h
  have hfk : (stl.insertAt (stl.ordered k (m.m_nodes.map (fun e => e.first)))
      ⟨stl.fresh m.m_nodes, k, (⟨some (stl.fresh m.m_nodes), some n⟩ : tree.KeyValuePair Node)⟩
      m.m_nodes).find? (fun e => e.first == k)
      = some ⟨stl.fresh m.m_nodes, k, ⟨some (stl.fresh m.m_nodes), some n⟩⟩ :=
    stl.find?_insertAt_of_true _ (by simp)
      (fun x hx => by simpa using List.find?_eq_none.1 hf x hx)
  rw [tree_insert_absent n hf]
  refine ⟨⟨some (stl.fresh m.m_nodes), rfl, by simp [tree.MapNode.end_], ?_⟩, ?_, ?_, ?_⟩
  · simp only [tree.MapNode.find, stl.find, hfk, Option.map_some']
  · exact stl.length_insertAt _ _ _
  · refine ⟨⟨some (stl.fresh m.m_nodes), some n⟩, ?_, ?_, rfl⟩
    · simp only [tree.MapNode.find, stl.find, hfk, Option.map_some', tree.MapNode.deref,
        stl.get_insertAt_new]
    · simp only [tree.KeyValuePair.key, stl.get_insertAt_new]
  · intro k' hk'
    have hfind : (stl.insertAt (stl.ordered k (m.m_nodes.map (fun e => e.first)))
        ⟨stl.fresh m.m_nodes, k, (⟨some (stl.fresh m.m_nodes), some n⟩ : tree.KeyValuePair Node)⟩
        m.m_nodes).find? (fun e => e.first == k')
        = m.m_nodes.find? (fun e => e.first == k') :=
      stl.find?_insertAt_of_false _ (by simpa using fun h2 : k = k' => hk' h2.symm)
    simp only [tree.MapNode.find, stl.find, hfind, tree.MapNode.deref]
    cases hk : m.m_nodes.find? (fun e => e.first == k') with
    | none => simp [stl.get]
    | some e =>
      have hmem : e ∈ m.m_nodes := List.mem_of_find?_eq_some hk
      have hne : stl.fresh m.m_nodes ≠ e.addr := fun h2 => stl.fresh_ne_addr _ hmem h2.symm
      have hold : ∀ v : tree.KeyValuePair Node,
          stl.get (stl.insertAt (stl.ordered k (m.m_nodes.map (fun e => e.first)))
            ⟨stl.fresh m.m_nodes, k, v⟩ m.m_nodes) (some e.addr) = some e := by
        intro v
        rw [stl.get_insertAt_old _ _ _ hne]
        exact stl.get_of_mem hwf.2.1 hmem
      simp only [Option.map_some', hold, stl.get_of_mem hwf.2.1 hmem, true_and]
      intro kv hkv
      have hkv2 : e.second = kv := by simpa using hkv
      subst hkv2
      have hst := (hwf.2.2 e hmem).1
      simp only [tree.KeyValuePair.key, hst, hold, stl.get_of_mem hwf.2.1 hmem,
        stl.key_eq_of_find? hk, and_self]

theorem insert_fresh_key_succeeds_witness :
    (tree.MapNode.run [Op.insert "a" (some 1)] : tree.MapNode Nat).find "b"
        = (tree.MapNode.run [Op.insert "a" (some 1)] : tree.MapNode Nat).end_
    ∧ ((tree.MapNode.run [Op.insert "a" (some 1)] : tree.MapNode Nat).insert "b" (some 2)).self.size
        = (tree.MapNode.run [Op.insert "a" (some 1)] : tree.MapNode Nat).size + 1 :=
  ⟨by decide, (insert_fresh_key_succeeds [Op.insert "a" (some 1)] "b" 2 (by decide)).2.1⟩

/-- C4, as the code has it.  A call `m.insert(k, std::move(p))` with a key that
is present and a non-null node returns `inserted = false` and does not store the
node (the map is unchanged), but it consumes the node: the caller's handle is
null after the call, the node is deleted when the by-value parameter is
destroyed, and a later `insert` with the handle throws `std::logic_error`. -/
theorem failed_insert_consumes_node (m : tree.MapNode Node) (k : key_type) (n : Node)
    (h : m.find k ≠ m.end_) :
    (m.insert_moved k (some n)).call.ret = .ok (m.find k, false)
    ∧ (m.insert_moved k (some n)).call.self = m
    ∧ (m.insert_moved k (some n)).p = none
    ∧ (m.insert_moved k (some n)).deleted = [n]
    ∧ ∀ k2, ((m.insert_moved k (some n)).call.self.insert k2 (m.insert_moved k (some n)).p).ret
        = .error (.thrown (.logic_error "Passed node is nullptr")) := by
  obtain ⟨e, he, hfe⟩ := find?_of_find_ne_none h
  have hp : (m.insert_moved k (some n)).p = none := rfl
  have hc : (m.insert_moved k (some n)).call = ⟨m, some n, .ok (some e.addr, false)⟩ :=
    tree_insert_present n he
  have hd : (m.insert_moved k (some n)).deleted
      = (m.insert_moved k (some n)).call.node.toList := rfl
  rw [hd, hp, hc]
  refine ⟨?_, rfl, rfl, rfl, fun k2 => ?_⟩
  · simp only [tree.MapNode.find]
    rw [hfe]
  · rw [tree_insert_null]

theorem failed_insert_consumes_node_witness :
    (tree.MapNode.run [Op.insert "a" (some 1)] : tree.MapNode Nat).find "a"
        ≠ (tree.MapNode.run [Op.insert "a" (some 1)] : tree.MapNode Nat).end_
    ∧ ((tree.MapNode.run [Op.insert "a" (some 1)] : tree.MapNode Nat).insert_moved "a"
          (some 2)).deleted = [2] :=
  ⟨by decide, (failed_insert_consumes_node (tree.MapNode.run [Op.insert "a" (some 1)]) "a" 2
    (by decide)).2.2.2.1⟩

/-- C4 as stated fails.  On the map holding key "a", the call
`insert("a", std::move(p))` with `p` owning node 2 returns `inserted = false`,
yet the caller does not own the node afterwards: the handle `p` is null, node 2
has been deleted, and the later call `insert("b", std::move(p))` throws instead
of inserting. -/
theorem failed_insert_keeps_node_counterexample :
    ((tree.MapNode.run [Op.insert "a" (some 1)] : tree.MapNode Nat).insert_moved "a"
        (some 2)).call.ret = .ok (some 1, false)
    ∧ ¬ (((tree.MapNode.run [Op.insert "a" (some 1)] : tree.MapNode Nat).insert_moved "a"
          (some 2)).p = some 2
        ∧ 2 ∉ ((tree.MapNode.run [Op.insert "a" (some 1)] : tree.MapNode Nat).insert_moved "a"
          (some 2)).deleted)
    ∧ (((tree.MapNode.run [Op.insert "a" (some 1)] : tree.MapNode Nat).insert_moved "a"
          (some 2)).call.self.insert "b"
        ((tree.MapNode.run [Op.insert "a" (some 1)] : tree.MapNode Nat).insert_moved "a"
          (some 2)).p).ret = .error (.thrown (.logic_error "Passed node is nullptr")) := by
  decide

end insert_claims

/-! ## `MapNode::erase` and `MapNode::find` -/

section erase_find_claims

variable {Node : Type}

/-- C5. `MapNode::erase` on any map reached from the empty map, in the
`std::map` class and in the `std::unordered_map` class: it returns 1 when the
key was present and 0 otherwise, afterwards `find(k)` is `end()`, `size()` has
decreased by the returned count, and every other key is found at the same
iterator with the same entry, whose `key()` still reads that key. -/
theorem erase_correct (bucket : key_type → List key_type → Nat) (ops : List (Op Node))
    (k : key_type) :
    (((tree.MapNode.run ops).erase k).2
        = (if (tree.MapNode.run ops).find k = (tree.MapNode.run ops).end_ then 0 else 1)
      ∧ ((tree.MapNode.run ops).erase k).1.find k = ((tree.MapNode.run ops).erase k).1.end_
      ∧ ((tree.MapNode.run ops).erase k).1.size + ((tree.MapNode.run ops).erase k).2
          = (tree.MapNode.run ops).size
      ∧ ((tree.MapNode.run ops).erase k).1.size
          = (tree.MapNode.run ops).size - ((tree.MapNode.run ops).erase k).2
      ∧ ∀ k', k' ≠ k →
          ((tree.MapNode.run ops).erase k).1.find k' = (tree.MapNode.run ops).find k'
          ∧ ((tree.MapNode.run ops).erase k).1.deref (((tree.MapNode.run ops).erase k).1.find k')
              = (tree.MapNode.run ops).deref ((tree.MapNode.run ops).find k')
          ∧ ∀ kv, (tree.MapNode.run ops).deref ((tree.MapNode.run ops).find k') = .ok kv →
              kv.key ((tree.MapNode.run ops).erase k).1 = .ok k'
              ∧ kv.key (tree.MapNode.run ops) = .ok k')
    ∧ (((cpp.MapNode.run bucket ops).erase k).2
        = (if (cpp.MapNode.run bucket ops).find k = (cpp.MapNode.run bucket ops).end_
            then 0 else 1)
      ∧ ((cpp.MapNode.run bucket ops).erase k).1.find k
          = ((cpp.MapNode.run bucket ops).erase k).1.end_
      ∧ ((cpp.MapNode.run bucket ops).erase k).1.size + ((cpp.MapNode.run bucket ops).erase k).2
          = (cpp.MapNode.run bucket ops).size
      ∧ ((cpp.MapNode.run bucket ops).erase k).1.size
          = (cpp.MapNode.run bucket ops).size - ((cpp.MapNode.run bucket ops).erase k).2
      ∧ ∀ k', k' ≠ k →
          ((cpp.MapNode.run bucket ops).erase k).1.find k' = (cpp.MapNode.run bucket ops).find k'
          ∧ ((cpp.MapNode.run bucket ops).erase k).1.deref
                (((cpp.MapNode.run bucket ops).erase k).1.find k')
              = (cpp.MapNode.run bucket ops).deref ((cpp.MapNode.run bucket ops).find k')
          ∧ ∀ kv, (cpp.MapNode.run bucket ops).deref ((cpp.MapNode.run bucket ops).find k')
                = .ok kv → kv.key = k') := by
  have hwt := tree_run_WF ops
  have hwc := cpp_run_WF bucket ops
  generalize tree.MapNode.run ops = mt at hwt ⊢
  generalize cpp.MapNode.run bucket ops = mc at hwc ⊢
  constructor
  · have hlen := stl.length_filter_key_add mt.m_nodes k
    refine ⟨stl.erase_count hwt k, stl.find_erase_self _ _, hlen, ?_, ?_⟩
    · simp only [tree.MapNode.erase, tree.MapNode.size, stl.erase]; omega
    · intro k' hk'
      refine ⟨stl.find_erase_ne _ hk', ?_, ?_⟩
      · simp only [tree.MapNode.deref, tree.MapNode.find, tree.MapNode.erase,
          stl.get_find_erase_ne hwt hk']
      · intro kv hkv
        simp only [tree.MapNode.deref, tree.MapNode.find] at hkv
        cases hg : stl.get mt.m_nodes (stl.find mt.m_nodes k') with
        | none => simp [hg] at hkv
        | some e =>
          obtain ⟨x, hx⟩ := stl.get_find_eq_some hg
          have hxe : x = e := by
            have := (stl.get_find_of_find? hwt hx).2
            rw [hg] at this
            exact (Option.some.inj this).symm
          subst hxe
          have hkv2 : x.second = kv := by simpa [hg] using hkv
          subst hkv2
          have hst := (hwt.2.2 x (List.mem_of_find?_eq_some hx)).1
          simp only [tree.KeyValuePair.key, hst, tree.MapNode.erase,
            stl.get_erase_of_find? hwt hk' hx,
            stl.get_of_mem hwt.2.1 (List.mem_of_find?_eq_some hx), stl.key_eq_of_find? hx,
            and_self]
  · have hlen := stl.length_filter_key_add mc.m_nodes k
    refine ⟨stl.erase_count hwc k, stl.find_erase_self _ _, hlen, ?_, ?_⟩
    · simp only [cpp.MapNode.erase, cpp.MapNode.size, stl.erase]; omega
    · intro k' hk'
      refine ⟨stl.find_erase_ne _ hk', ?_, ?_⟩
      · simp only [cpp.MapNode.deref, cpp.MapNode.find, cpp.MapNode.erase,
          stl.get_find_erase_ne hwc hk']
      · intro kv hkv
        simp only [cpp.MapNode.deref, cpp.MapNode.find] at hkv
        cases hg : stl.get mc.m_nodes (stl.find mc.m_nodes k') with
        | none => simp [hg] at hkv
        | some e =>
          obtain ⟨x, hx⟩ := stl.get_find_eq_some hg
          have hxe : x = e := by
            have := (stl.get_find_of_find? hwc hx).2
            rw [hg] at this
            exact (Option.some.inj this).symm
          subst hxe
          have hkv2 : x.second = kv := by simpa [hg] using hkv
          subst hkv2
          have hst := (hwc.2.2 x (List.mem_of_find?_eq_some hx)).1
          simp only [cpp.KeyValuePair.key, hst, stl.key_eq_of_find? hx]

/-- C6. `MapNode::find` on any map reached from the empty map by a history of
calls: it leaves the map as it was, it returns `end()` exactly when no stored
element has the key, which is exactly when the history leaves the key unbound,
and when it does not return `end()` the entry it designates has `key()` equal to
the key and `value()` equal to the node the history inserted under the key. -/
theorem find_is_pure_lookup (ops : List (Op Node)) (k : key_type) :
    ((tree.MapNode.run ops).find_mut k).1 = tree.MapNode.run ops
    ∧ ((tree.MapNode.run ops).find_mut k).2 = (tree.MapNode.run ops).find k
    ∧ ((tree.MapNode.run ops).find k = (tree.MapNode.run ops).end_
        ↔ ∀ e ∈ (tree.MapNode.run ops).m_nodes, e.first ≠ k)
    ∧ ((tree.MapNode.run ops).find k = (tree.MapNode.run ops).end_ ↔ bound ops k = none)
    ∧ ((tree.MapNode.run ops).find k ≠ (tree.MapNode.run ops).end_ →
        ∃ kv n, bound ops k = some n
          ∧ (tree.MapNode.run ops).deref ((tree.MapNode.run ops).find k) = .ok kv
          ∧ kv.key (tree.MapNode.run ops) = .ok k
          ∧ kv.value = .ok n) := by
  have hwf := tree_run_WF ops
  have hlk := tree_run_lookup ops k
  generalize tree.MapNode.run ops = m at hwf hlk ⊢
  refine ⟨rfl, rfl, ?_, ?_, ?_⟩
  · simp only [tree.MapNode.find, tree.MapNode.end_, find_eq_none_iff, List.find?_eq_none]
    constructor
    · intro h e he; simpa using h e he
    · intro h e he; simpa using h e he
  · rw [← hlk]
    simp only [tree.MapNode.find, tree.MapNode.end_, tree.MapNode.lookup]
    cases hf : m.m_nodes.find? (fun e => e.first == k) with
    | none => simp [stl.find, hf]
    | some e =>
      have hv := (hwf.2.2 e (List.mem_of_find?_eq_some hf)).2
      cases hval : e.second.m_value with
      | none => simp [hval] at hv
      | some n => simp [stl.find, hf, hval]
  · intro hne
    obtain ⟨e, he, hfe⟩ := find?_of_find_ne_none hne
    have hmem := List.mem_of_find?_eq_some he
    obtain ⟨hk1, hv⟩ := hwf.2.2 e hmem
    cases hval : e.second.m_value with
    | none => simp [hval] at hv
    | some n =>
      refine ⟨e.second, n, ?_, ?_, ?_, ?_⟩
      · rw [← hlk]; simp [tree.MapNode.lookup, he, hval]
      · simp only [tree.MapNode.deref, tree.MapNode.find, (stl.get_find_of_find? hwf he).2]
      · simp only [tree.KeyValuePair.key, hk1, stl.get_of_mem hwf.2.1 hmem,
          stl.key_eq_of_find? he]
      · simp [tree.KeyValuePair.value, hval, unique_ptr.deref]

theorem find_is_pure_lookup_witness :
    (tree.MapNode.run [Op.insert "a" (some 1), Op.insert "a" (some 2)] : tree.MapNode Nat).find "a"
        ≠ (tree.MapNode.run [Op.insert "a" (some 1), Op.insert "a" (some 2)] :
            tree.MapNode Nat).end_
    ∧ ∃ kv n, bound [Op.insert "a" (some 1), Op.insert "a" (some 2)] "a" = some n
        ∧ (tree.MapNode.run [Op.insert "a" (some 1), Op.insert "a" (some 2)] :
            tree.MapNode Nat).deref
            ((tree.MapNode.run [Op.insert "a" (some 1), Op.insert "a" (some 2)] :
              tree.MapNode Nat).find "a") = .ok kv
        ∧ kv.key (tree.MapNode.run [Op.insert "a" (some 1), Op.insert "a" (some 2)]) = .ok "a"
        ∧ kv.value = .ok n :=
  ⟨by decide,
    (find_is_pure_lookup [Op.insert "a" (some 1), Op.insert "a" (some 2)] "a").2.2.2.2
      (by decide)⟩

theorem erase_correct_witness :
    ("a" : key_type) ≠ "b"
    ∧ ((tree.MapNode.run [Op.insert "a" (some 1), Op.insert "b" (some 2), Op.insert "c" (some 3)] :
          tree.MapNode Nat).erase "b").1.find "a"
        = (tree.MapNode.run [Op.insert "a" (some 1), Op.insert "b" (some 2),
            Op.insert "c" (some 3)] : tree.MapNode Nat).find "a"
    ∧ ((tree.MapNode.run [Op.insert "a" (some 1), Op.insert "b" (some 2), Op.insert "c" (some 3)] :
          tree.MapNode Nat).erase "b").2 = 1
    ∧ ((tree.MapNode.run [Op.insert "a" (some 1), Op.insert "b" (some 2), Op.insert "c" (some 3)] :
          tree.MapNode Nat).erase "b").1.size = 2 :=
  ⟨by decide,
    ((erase_correct (fun _ _ => 0)
      [Op.insert "a" (some 1), Op.insert "b" (some 2), Op.insert "c" (some 3)] "b").1.2.2.2.2
        "a" (by decide)).1,
    by decide, by decide⟩

end erase_find_claims

/-! ## `ListNode` -/

section list_node_claims

variable {Node : Type}

theorem list_add_null (l : tree.ListNode Node) :
    l.add none = ⟨l, none, .error (.thrown (.logic_error "Passed node is nullptr"))⟩ := by
  simp [tree.ListNode.add]

theorem list_add_some (l : tree.ListNode Node) (n : Node) :
    l.add (some n) = ⟨⟨l.m_nodes ++ [some n]⟩, none, .ok ()⟩ := by
  simp [tree.ListNode.add]

theorem list_foldl_add (ps : List (unique_ptr Node)) :
    ∀ l : tree.ListNode Node,
      (ps.foldl (fun l node => (l.add node).self) l).m_nodes
        = l.m_nodes ++ ps.filter (fun p => p.isSome) := by
  induction ps with
  | nil => intro l; simp
  | cons p ps ih =>
    intro l
    rw [List.foldl_cons, ih]
    cases p with
    | none => simp [list_add_null]
    | some n => simp [list_add_some]

/-- The slots of a list built by `add` calls are the non-null arguments, in order. -/
theorem list_run_nodes (ps : List (unique_ptr Node)) :
    (tree.ListNode.run ps : tree.ListNode Node).m_nodes = ps.filter (fun p => p.isSome) := by
  have h := list_foldl_add ps ({} : tree.ListNode Node)
  simpa [tree.ListNode.run] using h

theorem list_run_some (ns : List Node) :
    (tree.ListNode.run (ns.map some) : tree.ListNode Node).m_nodes = ns.map some := by
  rw [list_run_nodes, List.filter_eq_self]
  intro p hp
  obtain ⟨n, _, rfl⟩ := List.mem_map.1 hp
  rfl

theorem list_at_of_node {l : tree.ListNode Node} {i : Nat} {n : Node}
    (h : l.m_nodes[i]? = some (some n)) : l.at i = (l, .ok n) := by
  have hlt : i < l.m_nodes.length := by
    by_contra hge
    rw [List.getElem?_eq_none (Nat.le_of_not_lt hge)] at h
    cases h
  simp [tree.ListNode.at, hlt, h]

theorem list_at_of_null {l : tree.ListNode Node} {i : Nat}
    (h : l.m_nodes[i]? = some none) : l.at i = (l, .error .assert_failed) := by
  have hlt : i < l.m_nodes.length := by
    by_contra hge
    rw [List.getElem?_eq_none (Nat.le_of_not_lt hge)] at h
    cases h
  simp [tree.ListNode.at, hlt, h]

theorem list_at_of_none {l : tree.ListNode Node} {i : Nat}
    (h : l.m_nodes[i]? = none) : l.at i = (l, .error (.thrown .out_of_range)) := by
  have hge : ¬ i < l.m_nodes.length := Nat.not_lt.2 (List.getElem?_eq_none_iff.1 h)
  simp [tree.ListNode.at, hge]

theorem list_at_eq (l : tree.ListNode Node) (i : Nat) :
    (l.at i).2 = (match l.m_nodes[i]? with
      | some (some n) => .ok n
      | some none => .error .assert_failed
      | none => .error (.thrown .out_of_range)) := by
  cases h : l.m_nodes[i]? with
  | none => rw [list_at_of_none h]
  | some p =>
    cases p with
    | none => rw [list_at_of_null h]
    | some n => rw [list_at_of_node h]

theorem list_at_self (l : tree.ListNode Node) (i : Nat) : (l.at i).1 = l := by
  cases h : l.m_nodes[i]? with
  | none => rw [list_at_of_none h]
  | some p =>
    cases p with
    | none => rw [list_at_of_null h]
    | some n => rw [list_at_of_node h]

theorem list_visit_suffix (rest : List Node) :
    ∀ (pre : List (unique_ptr Node)) (extra : Nat),
      (⟨pre ++ rest.map some⟩ : tree.ListNode Node).visit (rest.length + 1 + extra) pre.length
        = some (.ok rest) := by
  induction rest with
  | nil =>
    intro pre extra
    have h : (0 : Nat) + 1 + extra = extra + 1 := by omega
    simp only [List.length_nil, h, tree.ListNode.visit, tree.ListNode.end_, List.map_nil,
      List.append_nil, if_true]
  | cons x xs ih =>
    intro pre extra
    have h : (x :: xs).length + 1 + extra = (xs.length + 1 + extra) + 1 := by
      simp only [List.length_cons]; omega
    have hne : pre.length ≠ (pre ++ (x :: xs).map some).length := by
      simp only [List.length_append, List.length_map, List.length_cons]; omega
    have hg : (pre ++ (x :: xs).map some)[pre.length]? = some (some x) := by
      rw [List.getElem?_append_right (Nat.le_refl _), Nat.sub_self, List.map_cons,
        List.getElem?_cons_zero]
    have hd : (⟨pre ++ (x :: xs).map some⟩ : tree.ListNode Node).deref pre.length = .ok x := by
      simp only [tree.ListNode.deref, hg, unique_ptr.deref]
    have hpre : pre ++ (x :: xs).map some = (pre ++ [some x]) ++ xs.map some := by
      simp
    have hl : pre.length + 1 = (pre ++ [some x]).length := by simp
    rw [h, tree.ListNode.visit, tree.ListNode.end_, if_neg hne, hd]
    simp only []
    rw [hpre, hl, ih (pre ++ [some x]) extra]

/-- C7. `ListNode::add` keeps the order of the calls.  After `add(n_0)`, ...,
`add(n_{k-1})` with non-null nodes on an empty list, `size()` is `k`, `at(i)` is
`n_i` for `i < k` (and out of range beyond), and the loop from `begin()` to
`end()` visits `n_0, ..., n_{k-1}` in this order, with any fuel above `k`.
Each single `add(n)` on any list returns normally, takes the node, increases
`size()` by one, stores `n` at the old `size()` and leaves the earlier positions
as they were. -/
theorem add_preserves_append_order (ns : List Node) (l : tree.ListNode Node) (n : Node) :
    ((tree.ListNode.run (ns.map some)).size = ns.length
      ∧ (∀ i, ((tree.ListNode.run (ns.map some)).at i).2
          = (match ns[i]? with
            | some x => .ok x
            | none => .error (.thrown .out_of_range)))
      ∧ ∀ extra, (tree.ListNode.run (ns.map some)).visit (ns.length + 1 + extra)
          (tree.ListNode.run (ns.map some)).begin = some (.ok ns))
    ∧ ((l.add (some n)).ret = .ok ()
      ∧ (l.add (some n)).node = none
      ∧ (l.add (some n)).self.size = l.size + 1
      ∧ (l.add (some n)).self.m_nodes = l.m_nodes ++ [some n]
      ∧ ∀ i, ((l.add (some n)).self.at i).2 = if i = l.size then .ok n else (l.at i).2) := by
  constructor
  · have hrun : (tree.ListNode.run (ns.map some) : tree.ListNode Node) = ⟨ns.map some⟩ := by
      have := list_run_some ns
      cases hr : (tree.ListNode.run (ns.map some) : tree.ListNode Node)
      rw [hr] at this
      simpa using this
    rw [hrun]
    refine ⟨by simp [tree.ListNode.size], ?_, ?_⟩
    · intro i
      rw [list_at_eq]
      simp only [List.getElem?_map]
      cases ns[i]? <;> rfl
    · intro extra
      have := list_visit_suffix ns [] extra
      simpa [tree.ListNode.begin] using this
  · rw [list_add_some]
    refine ⟨rfl, rfl, by simp [tree.ListNode.size], rfl, ?_⟩
    intro i
    rw [list_at_eq, list_at_eq]
    simp only [tree.ListNode.size]
    by_cases h : i = l.m_nodes.length
    · subst h; simp
    · rw [if_neg h]
      by_cases h2 : i < l.m_nodes.length
      · rw [List.getElem?_append_left h2]
      · have h3 : l.m_nodes.length < i := by omega
        have g1 : (l.m_nodes ++ [some n])[i]? = none :=
          List.getElem?_eq_none (by simp; omega)
        have g2 : l.m_nodes[i]? = none := List.getElem?_eq_none (by omega)
        rw [g1, g2]

/-- C8. `ListNode::add` with a null node throws `std::logic_error` and leaves the
list as it was: the same `size()` and the same result of `at(i)` at every
position. -/
theorem add_null_rejected_without_mutation (l : tree.ListNode Node) :
    (l.add none).ret = .error (.thrown (.logic_error "Passed node is nullptr"))
    ∧ (l.add none).self = l
    ∧ (l.add none).self.size = l.size
    ∧ ∀ i, ((l.add none).self.at i).2 = (l.at i).2 := by
  rw [list_add_null]
  exact ⟨rfl, rfl, rfl, fun _ => rfl⟩

/-- C9. `ListNode::at` is bounds checked.  On every list it throws
`std::out_of_range` exactly when `i >= size()`, and it leaves the list as it
was; on every list built by `add` calls (null arguments included) it returns,
for `i < size()`, the node stored at position `i`. -/
theorem at_bounds_checked (l : tree.ListNode Node) (ps : List (unique_ptr Node)) (i : Nat) :
    ((l.at i).2 = .error (.thrown .out_of_range) ↔ l.size ≤ i)
    ∧ (l.at i).1 = l
    ∧ (i < (tree.ListNode.run ps).size →
        ∃ n, ((tree.ListNode.run ps).at i).2 = .ok n
          ∧ (tree.ListNode.run ps).m_nodes[i]? = some (some n)
          ∧ (tree.ListNode.run ps).deref ((tree.ListNode.run ps).begin + i) = .ok n) := by
  refine ⟨?_, list_at_self l i, ?_⟩
  · simp only [tree.ListNode.size]
    cases h : l.m_nodes[i]? with
    | none =>
      rw [list_at_of_none h]
      exact ⟨fun _ => List.getElem?_eq_none_iff.1 h, fun _ => rfl⟩
    | some p =>
      have hlt : ¬ l.m_nodes.length ≤ i := by
        intro hge
        rw [List.getElem?_eq_none hge] at h
        cases h
      cases p with
      | none =>
        rw [list_at_of_null h]
        exact ⟨fun h2 => (by cases h2), fun h2 => absurd h2 hlt⟩
      | some n =>
        rw [list_at_of_node h]
        exact ⟨fun h2 => (by cases h2), fun h2 => absurd h2 hlt⟩
  · intro hi
    have hnodes := list_run_nodes ps
    generalize (tree.ListNode.run ps : tree.ListNode Node) = r at hi hnodes ⊢
    simp only [tree.ListNode.size] at hi
    cases hg : r.m_nodes[i]? with
    | none => exact absurd (List.getElem?_eq_none_iff.1 hg) (Nat.not_le.2 hi)
    | some p =>
      have hmem : p ∈ ps.filter (fun p => p.isSome) := by
        rw [← hnodes]; exact List.getElem?_mem hg
      have hsome := (List.mem_filter.1 hmem).2
      cases p with
      | none => cases hsome
      | some n =>
        refine ⟨n, ?_, rfl, ?_⟩
        · rw [list_at_of_node hg]
        · simp only [tree.ListNode.deref, tree.ListNode.begin, Nat.zero_add, hg,
            unique_ptr.deref]

theorem at_bounds_checked_witness :
    1 < (tree.ListNode.run [some 5, none, some 7] : tree.ListNode Nat).size
    ∧ ∃ n, ((tree.ListNode.run [some 5, none, some 7] : tree.ListNode Nat).at 1).2 = .ok n
        ∧ (tree.ListNode.run [some 5, none, some 7] : tree.ListNode Nat).m_nodes[1]?
            = some (some n)
        ∧ (tree.ListNode.run [some 5, none, some 7] : tree.ListNode Nat).deref
            ((tree.ListNode.run [some 5, none, some 7] : tree.ListNode Nat).begin + 1) = .ok n :=
  ⟨by decide, (at_bounds_checked (tree.ListNode.run [some 5, none, some 7])
    [some 5, none, some 7] 1).2.2 (by decide)⟩

end list_node_claims

/-! ## `List::push_back` -/

section list_claims

variable {ItemT : Type}

/-- C10. `List::push_back(v)` on a list of size `n` invokes exactly two signals,
in this order: `itemAboutToBeInserted(v, end())` with `end()` at position `n`,
the old size, and `itemInserted` with the position of the new element, `n`,
which is the new size minus one.  The append happens between the two: the first
invocation runs on the items as they were, the second on the items with `v`
appended. -/
theorem push_back_emits_one_ordered_pair (s : container.List ItemT) (v : ItemT) :
    (s.push_back v).2.map (fun e => e.call)
        = [.itemAboutToBeInserted v s.size, .itemInserted s.size]
    ∧ (s.push_back v).2
        = [⟨.itemAboutToBeInserted v s.end_, s.m_items⟩,
           ⟨.itemInserted ((s.push_back v).1.size - 1), (s.push_back v).1.m_items⟩]
    ∧ s.end_ = s.size
    ∧ (s.push_back v).1.size - 1 = s.size
    ∧ (s.push_back v).1.size = s.size + 1
    ∧ (s.push_back v).1.m_items = s.m_items ++ [v]
    ∧ (s.push_back v).1.m_items[s.size]? = some v := by
  simp [container.List.push_back, container.List.size, container.List.end_]

end list_claims

/-! ## `List`: what the slots see, and the sequence after `push_back` -/

section list_sequence_claims

variable {ItemT : Type}

theorem container_visit_suffix (rest : List ItemT) :
    ∀ (pre : List ItemT) (extra : Nat),
      (⟨pre ++ rest⟩ : container.List ItemT).visit (rest.length + 1 + extra) pre.length
        = some (.ok rest) := by
  induction rest with
  | nil =>
    intro pre extra
    have h : (0 : Nat) + 1 + extra = extra + 1 := by omega
    simp only [List.length_nil, h, container.List.visit, container.List.end_,
      List.append_nil, if_true]
  | cons x xs ih =>
    intro pre extra
    have h : (x :: xs).length + 1 + extra = (xs.length + 1 + extra) + 1 := by
      simp only [List.length_cons]; omega
    have hne : pre.length ≠ (pre ++ x :: xs).length := by
      simp only [List.length_append, List.length_cons]; omega
    have hg : (pre ++ x :: xs)[pre.length]? = some x := by
      rw [List.getElem?_append_right (Nat.le_refl _), Nat.sub_self, List.getElem?_cons_zero]
    have hd : (⟨pre ++ x :: xs⟩ : container.List ItemT).deref pre.length = .ok x := by
      simp only [container.List.deref, hg]
    have hpre : pre ++ x :: xs = (pre ++ [x]) ++ xs := by simp
    have hl : pre.length + 1 = (pre ++ [x]).length := by simp
    rw [h, container.List.visit, container.List.end_, if_neg hne, hd]
    simp only []
    rw [hpre, hl, ih (pre ++ [x]) extra]

/-- C11. What the slots of `List::push_back(v)` see.  The slots of
`itemAboutToBeInserted` run on the items as they were before the call: size
`n`, no item at position `n`.  The slots of `itemInserted` run on the items
after the append: size `n + 1`, item `v` at position `n`, the earlier items
unchanged.  The items the call leaves behind are the ones the slots of
`itemInserted` saw: nothing is stored after the second signal. -/
theorem push_back_visibility (s : container.List ItemT) (v : ItemT) :
    ∃ e1 e2, (s.push_back v).2 = [e1, e2]
      ∧ e1.call = .itemAboutToBeInserted v s.size
      ∧ e1.m_items = s.m_items
      ∧ e1.m_items.length = s.size
      ∧ e1.m_items[s.size]? = none
      ∧ e2.call = .itemInserted s.size
      ∧ e2.m_items.length = s.size + 1
      ∧ e2.m_items[s.size]? = some v
      ∧ e2.m_items.take s.size = s.m_items
      ∧ (s.push_back v).1.m_items = e2.m_items := by
  refine ⟨⟨.itemAboutToBeInserted v s.end_, s.m_items⟩,
    ⟨.itemInserted ((s.m_items ++ [v]).length - 1), s.m_items ++ [v]⟩, rfl, rfl, rfl, rfl,
    ?_, ?_, ?_, ?_, ?_, rfl⟩
  · exact List.getElem?_eq_none (Nat.le_refl _)
  · simp [container.List.size]
  · simp [container.List.size]
  · simp [container.List.size]
  · simp [container.List.size]

/-- C12. `List::push_back(v)` on a list holding `x_0, ..., x_{n-1}`: afterwards
`size()` is `n + 1`, `back()` is `v`, the loop from `begin()` to `end()` visits
`x_0, ..., x_{n-1}, v` (with any fuel above the size), and `front()` is `x_0`
when there was an item and `v` when the list was empty. -/
theorem push_back_sequence_semantics (s : container.List ItemT) (v : ItemT) :
    (s.push_back v).1.size = s.size + 1
    ∧ (s.push_back v).1.back = .ok v
    ∧ (∀ extra, (s.push_back v).1.visit ((s.push_back v).1.size + 1 + extra)
          (s.push_back v).1.begin = some (.ok (s.m_items ++ [v])))
    ∧ (s.push_back v).1.front
        = (match s.m_items with
          | [] => .ok v
          | x :: _ => .ok x) := by
  have hself : (s.push_back v).1 = ⟨s.m_items ++ [v]⟩ := rfl
  rw [hself]
  refine ⟨by simp [container.List.size], by simp [container.List.back], ?_, ?_⟩
  · intro extra
    have := container_visit_suffix (s.m_items ++ [v]) [] extra
    simpa [container.List.size, container.List.begin] using this
  · cases s.m_items <;> simp [container.List.front]

end list_sequence_claims

/-! ## `MapNode::clear`, and the assertions and failures of `ListNode` -/

section clear_and_failures

variable {Node : Type}

/-- C15. `MapNode::clear` empties the map, in both classes: afterwards `size()`
is 0, `empty()` is true, `begin()` equals `end()` and `find(k)` is `end()` for
every key.  In every state `empty()` is true exactly when `size()` is 0. -/
theorem clear_empties (mt : tree.MapNode Node) (mc : cpp.MapNode Node) :
    (mt.clear.size = 0
      ∧ mt.clear.empty = true
      ∧ mt.clear.begin = mt.clear.end_
      ∧ (∀ k, mt.clear.find k = mt.clear.end_)
      ∧ (mt.empty = true ↔ mt.size = 0))
    ∧ (mc.clear.size = 0
      ∧ mc.clear.empty = true
      ∧ mc.clear.begin = mc.clear.end_
      ∧ (∀ k, mc.clear.find k = mc.clear.end_)
      ∧ (mc.empty = true ↔ mc.size = 0)) := by
  refine ⟨⟨rfl, rfl, rfl, fun _ => rfl, ?_⟩, ⟨rfl, rfl, rfl, fun _ => rfl, ?_⟩⟩
  · simp [tree.MapNode.empty, tree.MapNode.size, List.isEmpty_iff]
  · simp [cpp.MapNode.empty, cpp.MapNode.size, List.isEmpty_iff]

theorem list_index_eq (l : tree.ListNode Node) (i : Nat) :
    (l.index i).2 = (match l.m_nodes[i]? with
      | some (some n) => .ok n
      | some none => .error .assert_failed
      | none => .error .undefined) := by
  unfold tree.ListNode.index
  cases h : l.m_nodes[i]? with
  | none => rfl
  | some p => cases p <;> rfl

theorem list_index_self (l : tree.ListNode Node) (i : Nat) : (l.index i).1 = l := by
  unfold tree.ListNode.index
  cases h : l.m_nodes[i]? with
  | none => rfl
  | some p => cases p <;> rfl

theorem list_run_slot_ne_none (ps : List (unique_ptr Node)) :
    ∀ p ∈ (tree.ListNode.run ps : tree.ListNode Node).m_nodes, p ≠ none := by
  intro p hp
  rw [list_run_nodes] at hp
  have := (List.mem_filter.1 hp).2
  intro h
  subst h
  cases this

/-- C20. The assertion `assert(node)` of `ListNode::at` and of
`ListNode::operator[]` never fails on a list built from the empty list by `add`
calls, rejected `add(null)` calls included: every stored slot holds a non-null
node, no call of `at` or `operator[]` ends in a failed assertion, and for
`i < size()` both return the node. -/
theorem assert_never_fails (ps : List (unique_ptr Node)) (i : Nat) :
    (∀ p ∈ (tree.ListNode.run ps).m_nodes, p ≠ none)
    ∧ ((tree.ListNode.run ps).at i).2 ≠ .error .assert_failed
    ∧ ((tree.ListNode.run ps).index i).2 ≠ .error .assert_failed
    ∧ (i < (tree.ListNode.run ps).size →
        ∃ n, ((tree.ListNode.run ps).at i).2 = .ok n
          ∧ ((tree.ListNode.run ps).index i).2 = .ok n) := by
  have hslots := list_run_slot_ne_none ps
  generalize (tree.ListNode.run ps : tree.ListNode Node) = l at hslots ⊢
  refine ⟨hslots, ?_, ?_, ?_⟩
  · rw [list_at_eq]
    cases h : l.m_nodes[i]? with
    | none => simp
    | some p =>
      cases p with
      | none => exact absurd rfl (hslots none (List.getElem?_mem h))
      | some n => simp
  · rw [list_index_eq]
    cases h : l.m_nodes[i]? with
    | none => simp
    | some p =>
      cases p with
      | none => exact absurd rfl (hslots none (List.getElem?_mem h))
      | some n => simp
  · intro hi
    simp only [tree.ListNode.size] at hi
    rw [list_at_eq, list_index_eq]
    cases h : l.m_nodes[i]? with
    | none => exact absurd (List.getElem?_eq_none_iff.1 h) (Nat.not_le.2 hi)
    | some p =>
      cases p with
      | none => exact absurd rfl (hslots none (List.getElem?_mem h))
      | some n => exact ⟨n, rfl, rfl⟩

theorem assert_never_fails_witness :
    2 < (tree.ListNode.run [some 5, none, some 7, some 9] : tree.ListNode Nat).size
    ∧ ∃ n, ((tree.ListNode.run [some 5, none, some 7, some 9] : tree.ListNode Nat).at 2).2
          = .ok n
        ∧ ((tree.ListNode.run [some 5, none, some 7, some 9] : tree.ListNode Nat).index 2).2
          = .ok n :=
  ⟨by decide, (assert_never_fails [some 5, none, some 7, some 9] 2).2.2.2 (by decide)⟩

end clear_and_failures

/-! ## The two failure conditions, and the iterators of `ListNode` -/

section failures_and_iterators

variable {Node : Type}

theorem at_bounds_checked_aux {Node : Type} (ps : List (unique_ptr Node)) (i : Nat) :
    i < (tree.ListNode.run ps).size →
      ∃ n, ((tree.ListNode.run ps).at i).2 = .ok n
        ∧ (tree.ListNode.run ps).m_nodes[i]? = some (some n) := by
  intro hi
  have hnodes := list_run_nodes ps
  generalize (tree.ListNode.run ps : tree.ListNode Node) = r at hi hnodes ⊢
  simp only [tree.ListNode.size] at hi
  cases hg : r.m_nodes[i]? with
  | none => exact absurd (List.getElem?_eq_none_iff.1 hg) (Nat.not_le.2 hi)
  | some p =>
    have hmem : p ∈ ps.filter (fun p => p.isSome) := by
      rw [← hnodes]; exact List.getElem?_mem hg
    have hsome := (List.mem_filter.1 hmem).2
    cases p with
    | none => cases hsome
    | some n => exact ⟨n, by rw [list_at_of_node hg], rfl⟩

/-- C17 as stated fails.  On the empty list `add(null)` throws
`std::logic_error` and `at(0)` throws `std::out_of_range`; the handler
`catch (const std::logic_error&)`, which recognises the failure of `add(null)`,
matches the failure of `at(0)` as well. -/
theorem logic_error_handler_counterexample :
    (({} : tree.ListNode Nat).add none).ret
        = .error (.thrown (.logic_error "Passed node is nullptr"))
    ∧ (({} : tree.ListNode Nat).at 0).2 = .error (.thrown .out_of_range)
    ∧ catches .logic_error (.logic_error "Passed node is nullptr") = true
    ∧ catches .logic_error .out_of_range = true := by
  decide

/-- C17, as the code has it.  `add(null)` and `insert(k, null)` throw
`std::logic_error`, `at(i)` with `i >= size()` throws `std::out_of_range`, and
no call of `at` throws an object of class `std::logic_error`.  The two classes
differ, and the handler for `std::out_of_range` matches the failure of `at` and
not the one of `add(null)` and `insert(k, null)`.  But `std::out_of_range`
derives from `std::logic_error`: every handler that matches the failure of
`add(null)` and `insert(k, null)` matches the failure of `at` as well. -/
theorem at_failure_is_derived_class (l : tree.ListNode Node) (m : tree.MapNode Node)
    (k : key_type) (i : Nat) (w : String) (handler : exception_class) :
    (l.add none).ret = .error (.thrown (.logic_error "Passed node is nullptr"))
    ∧ (m.insert k none).ret = .error (.thrown (.logic_error "Passed node is nullptr"))
    ∧ (l.size ≤ i → (l.at i).2 = .error (.thrown .out_of_range))
    ∧ (l.at i).2 ≠ .error (.thrown (.logic_error w))
    ∧ (exception.logic_error w).type ≠ exception.out_of_range.type
    ∧ catches .out_of_range .out_of_range = true
    ∧ catches .out_of_range (.logic_error w) = false
    ∧ (catches handler (.logic_error w) = true → catches handler .out_of_range = true) := by
  refine ⟨by rw [list_add_null], by rw [tree_insert_null], ?_, ?_, ?_, by decide, ?_, ?_⟩
  · intro h
    rw [list_at_of_none (List.getElem?_eq_none h)]
  · rw [list_at_eq]
    cases h : l.m_nodes[i]? with
    | none => simp
    | some p => cases p <;> simp
  · simp [exception.type]
  · simp [catches, exception.type, exception_class.is_a, exception_class.base]
  · cases handler <;>
      simp [catches, exception.type, exception_class.is_a, exception_class.base]

theorem at_failure_is_derived_class_witness :
    ({} : tree.ListNode Nat).size ≤ 0
    ∧ (({} : tree.ListNode Nat).at 0).2 = .error (.thrown .out_of_range)
    ∧ catches .exception (.logic_error "Passed node is nullptr") = true
    ∧ catches .exception .out_of_range = true :=
  ⟨by decide,
    (at_failure_is_derived_class ({} : tree.ListNode Nat) ({} : tree.MapNode Nat) "k" 0
      "Passed node is nullptr" .exception).2.2.1 (by decide),
    by decide,
    (at_failure_is_derived_class ({} : tree.ListNode Nat) ({} : tree.MapNode Nat) "k" 0
      "Passed node is nullptr" .exception).2.2.2.2.2.2.2 (by decide)⟩

theorem star_of_node {l : tree.ListNode Node} {i : Nat} {x : Node}
    (h : l.m_nodes[i]? = some (some x)) :
    (tree.ListNode.Iterator.mk (i : Int)).star l = .ok x := by
  simp [tree.ListNode.Iterator.star, tree.ListNode.deref, h, unique_ptr.deref]

theorem iterator_at_ok {l : tree.ListNode Node} {pos : Int} (h0 : 0 ≤ pos)
    (h1 : pos ≤ (l.size : Int)) : l.iterator_at pos = .ok ⟨pos⟩ := by
  simp only [tree.ListNode.size] at h1
  simp [tree.ListNode.iterator_at, h0, h1]

theorem size_t_to_difference_type_small {n : Nat} (h : n < 2 ^ 63) :
    size_t_to_difference_type n = (n : Int) := by
  have h1 : n % 2 ^ 64 = n := Nat.mod_eq_of_lt (by omega)
  simp only [size_t_to_difference_type, h1]
  rw [if_pos h]

/-- The subscript of an iterator converts its `size_t` argument to the signed
`difference_type`: on the list of the nodes 5, 6, 7 the expression
`(begin() + 2)[size_t(-1)]` is the node 6 at position 1. -/
theorem subscript_converts_size_t :
    ∃ a, (tree.ListNode.Iterator.mk
          (tree.ListNode.run [some 5, some 6, some 7] : tree.ListNode Nat).begin).plus
        (tree.ListNode.run [some 5, some 6, some 7]) 2 = .ok a
      ∧ a.subscript (tree.ListNode.run [some 5, some 6, some 7] : tree.ListNode Nat)
          (2 ^ 64 - 1) = .ok 6 :=
  ⟨⟨2⟩, by decide, by decide⟩

theorem iterator_node_at {r : tree.ListNode Node} {p n : Nat} (hn : n < 2 ^ 63)
    (hlt : p + n < r.size) {x : Node} (hx : (r.at (p + n)).2 = .ok x) :
    ∃ a b, (tree.ListNode.Iterator.mk r.begin).plus r p = .ok a
      ∧ a.subscript r n = .ok x
      ∧ a.plus r n = .ok b
      ∧ b.star r = .ok x := by
  have hslot : r.m_nodes[p + n]? = some (some x) := by
    rw [list_at_eq] at hx
    cases h : r.m_nodes[p + n]? with
    | none => simp [h] at hx
    | some o =>
      cases o with
      | none => simp [h] at hx
      | some y =>
        simp only [h, Except.ok.injEq] at hx
        rw [hx]
  have hp : (tree.ListNode.Iterator.mk r.begin).plus r p = .ok ⟨(p : Int)⟩ := by
    simp only [tree.ListNode.Iterator.plus, tree.ListNode.begin, Nat.cast_zero, Int.zero_add]
    exact iterator_at_ok (by omega) (by omega)
  have hpn : (tree.ListNode.Iterator.mk (p : Int)).plus r n = .ok ⟨((p + n : Nat) : Int)⟩ := by
    simp only [tree.ListNode.Iterator.plus, Nat.cast_add]
    exact iterator_at_ok (by omega) (by omega)
  refine ⟨⟨(p : Int)⟩, ⟨((p + n : Nat) : Int)⟩, hp, ?_, hpn, star_of_node hslot⟩
  simp only [tree.ListNode.Iterator.subscript, size_t_to_difference_type_small hn, hpn]
  exact star_of_node hslot

/-- C19. The iterators of `ListNode` are random-access views of the positions.
Offsets inside a vector are below `2 ^ 63`, where the conversion of the
`size_t` subscript to `difference_type` is exact.  On a list built by `add`
calls, for `p + n < size()` the iterators `begin() + p` and `begin() + p + n`
exist, and `(begin() + p)[n]` and `*(begin() + p + n)` are the node
`at(p + n)`; on any list they are that node whenever `at(p + n)` returns one.
`begin() + size()` compares equal to `end()` under `==` (and not under `!=`).
For an iterator `it` into the list and an offset `d` that stays inside it,
`(it + d) - d` compares equal to `it`, and `++` and `--` are `+ 1` and `- 1`.
For positions `p` and `q` of the list, `==`, `!=`, `<`, `<=`, `>`, `>=` on
`begin() + p` and `begin() + q` compare `p` and `q`. -/
theorem iterators_random_access (l : tree.ListNode Node) (ps : List (unique_ptr Node))
    (p n q : Nat) (it : tree.ListNode.Iterator) (d : Int) (hn : n < 2 ^ 63) :
    (p + n < (tree.ListNode.run ps).size →
        ∃ x a b, ((tree.ListNode.run ps).at (p + n)).2 = .ok x
          ∧ (tree.ListNode.Iterator.mk (tree.ListNode.run ps).begin).plus
              (tree.ListNode.run ps) p = .ok a
          ∧ a.subscript (tree.ListNode.run ps) n = .ok x
          ∧ a.plus (tree.ListNode.run ps) n = .ok b
          ∧ b.star (tree.ListNode.run ps) = .ok x)
    ∧ (p + n < l.size → ∀ x, (l.at (p + n)).2 = .ok x →
        ∃ a b, (tree.ListNode.Iterator.mk l.begin).plus l p = .ok a
          ∧ a.subscript l n = .ok x
          ∧ a.plus l n = .ok b
          ∧ b.star l = .ok x)
    ∧ (∃ e, (tree.ListNode.Iterator.mk l.begin).plus l l.size = .ok e
        ∧ e.eq (tree.ListNode.Iterator.mk l.end_) = true
        ∧ e.ne (tree.ListNode.Iterator.mk l.end_) = false)
    ∧ (0 ≤ it.m_it → it.m_it ≤ l.size → 0 ≤ it.m_it + d → it.m_it + d ≤ l.size →
        ∃ a b, it.plus l d = .ok a
          ∧ a.minus l d = .ok b
          ∧ b.eq it = true
          ∧ b.ne it = false)
    ∧ (0 ≤ it.m_it → it.m_it + 1 ≤ l.size →
        ∃ a b, it.inc l = .ok a
          ∧ it.plus l 1 = .ok a
          ∧ a.dec l = .ok b
          ∧ b.eq it = true)
    ∧ (p ≤ l.size → q ≤ l.size →
        ∃ a b, (tree.ListNode.Iterator.mk l.begin).plus l p = .ok a
          ∧ (tree.ListNode.Iterator.mk l.begin).plus l q = .ok b
          ∧ a.eq b = decide (p = q)
          ∧ a.ne b = decide (p ≠ q)
          ∧ a.lt b = decide (p < q)
          ∧ a.le b = decide (p ≤ q)
          ∧ a.gt b = decide (p > q)
          ∧ a.ge b = decide (p ≥ q)) := by
  have hbegin : ∀ (r : tree.ListNode Node) (i : Nat), i ≤ r.size →
      (tree.ListNode.Iterator.mk r.begin).plus r i = .ok ⟨(i : Int)⟩ := by
    intro r i hi
    simp only [tree.ListNode.Iterator.plus, tree.ListNode.begin, Nat.cast_zero, Int.zero_add]
    exact iterator_at_ok (by omega) (by omega)
  refine ⟨?_, ?_, ?_, ?_, ?_, ?_⟩
  · intro h
    obtain ⟨x, hx, _⟩ := at_bounds_checked_aux ps (p + n) h
    obtain ⟨a, b, h1, h2, h3, h4⟩ := iterator_node_at hn h hx
    exact ⟨x, a, b, hx, h1, h2, h3, h4⟩
  · intro h x hx
    exact iterator_node_at hn h hx
  · refine ⟨⟨(l.size : Int)⟩, hbegin l l.size (Nat.le_refl _), ?_, ?_⟩
    · simp [tree.ListNode.Iterator.eq, tree.ListNode.end_, tree.ListNode.size]
    · simp [tree.ListNode.Iterator.ne, tree.ListNode.end_, tree.ListNode.size]
  · intro h0 h1 h2 h3
    refine ⟨⟨it.m_it + d⟩, ⟨it.m_it⟩, ?_, ?_, ?_, ?_⟩
    · exact iterator_at_ok h2 h3
    · simp only [tree.ListNode.Iterator.minus, Int.add_sub_cancel]
      exact iterator_at_ok h0 h1
    · simp [tree.ListNode.Iterator.eq]
    · simp [tree.ListNode.Iterator.ne]
  · intro h0 h1
    refine ⟨⟨it.m_it + 1⟩, ⟨it.m_it⟩, ?_, ?_, ?_, ?_⟩
    · exact iterator_at_ok (by omega) h1
    · exact iterator_at_ok (by omega) h1
    · simp only [tree.ListNode.Iterator.dec, Int.add_sub_cancel]
      exact iterator_at_ok h0 (by omega)
    · simp [tree.ListNode.Iterator.eq]
  · intro hp hq
    refine ⟨⟨(p : Int)⟩, ⟨(q : Int)⟩, hbegin l p hp, hbegin l q hq, ?_, ?_, ?_, ?_, ?_, ?_⟩
    · simp [tree.ListNode.Iterator.eq]
    · simp [tree.ListNode.Iterator.ne]
    · simp [tree.ListNode.Iterator.lt]
    · simp [tree.ListNode.Iterator.le]
    · simp [tree.ListNode.Iterator.gt]
    · simp [tree.ListNode.Iterator.ge]

theorem iterators_random_access_witness :
    (1 : Nat) < 2 ^ 63
    ∧ 1 + 1 < (tree.ListNode.run [some 5, some 6, some 7] : tree.ListNode Nat).size
    ∧ (0 : Int) ≤ (tree.ListNode.Iterator.mk 1).m_it
    ∧ (tree.ListNode.Iterator.mk 1).m_it
        ≤ (tree.ListNode.run [some 5, some 6, some 7] : tree.ListNode Nat).size
    ∧ (0 : Int) ≤ (tree.ListNode.Iterator.mk 1).m_it + 2
    ∧ (tree.ListNode.Iterator.mk 1).m_it + 2
        ≤ (tree.ListNode.run [some 5, some 6, some 7] : tree.ListNode Nat).size
    ∧ 1 ≤ (tree.ListNode.run [some 5, some 6, some 7] : tree.ListNode Nat).size
    ∧ 3 ≤ (tree.ListNode.run [some 5, some 6, some 7] : tree.ListNode Nat).size
    ∧ (∃ x a b,
        ((tree.ListNode.run [some 5, some 6, some 7] : tree.ListNode Nat).at (1 + 1)).2 = .ok x
        ∧ (tree.ListNode.Iterator.mk
            (tree.ListNode.run [some 5, some 6, some 7] : tree.ListNode Nat).begin).plus
              (tree.ListNode.run [some 5, some 6, some 7]) (1 : Nat) = .ok a
        ∧ a.subscript (tree.ListNode.run [some 5, some 6, some 7]) 1 = .ok x
        ∧ a.plus (tree.ListNode.run [some 5, some 6, some 7]) (1 : Nat) = .ok b
        ∧ b.star (tree.ListNode.run [some 5, some 6, some 7]) = .ok x)
    ∧ (∃ a b, (tree.ListNode.Iterator.mk 1).plus
              (tree.ListNode.run [some 5, some 6, some 7] : tree.ListNode Nat) 2 = .ok a
        ∧ a.minus (tree.ListNode.run [some 5, some 6, some 7] : tree.ListNode Nat) 2 = .ok b
        ∧ b.eq (tree.ListNode.Iterator.mk 1) = true
        ∧ b.ne (tree.ListNode.Iterator.mk 1) = false)
    ∧ (∃ a b, (tree.ListNode.Iterator.mk
            (tree.ListNode.run [some 5, some 6, some 7] : tree.ListNode Nat).begin).plus
              (tree.ListNode.run [some 5, some 6, some 7]) (1 : Nat) = .ok a
        ∧ (tree.ListNode.Iterator.mk
            (tree.ListNode.run [some 5, some 6, some 7] : tree.ListNode Nat).begin).plus
              (tree.ListNode.run [some 5, some 6, some 7]) (3 : Nat) = .ok b
        ∧ a.eq b = decide (1 = 3)
        ∧ a.ne b = decide (1 ≠ 3)
        ∧ a.lt b = decide (1 < 3)
        ∧ a.le b = decide (1 ≤ 3)
        ∧ a.gt b = decide (1 > 3)
        ∧ a.ge b = decide (1 ≥ 3)) :=
  ⟨by decide, by decide, by decide, by decide, by decide, by decide, by decide, by decide,
    (iterators_random_access (tree.ListNode.run [some 5, some 6, some 7])
      [some 5, some 6, some 7] 1 1 3 ⟨1⟩ 2 (by decide)).1 (by decide),
    (iterators_random_access (tree.ListNode.run [some 5, some 6, some 7])
      [some 5, some 6, some 7] 1 1 3 ⟨1⟩ 2 (by decide)).2.2.2.1
        (by decide) (by decide) (by decide) (by decide),
    (iterators_random_access (tree.ListNode.run [some 5, some 6, some 7])
      [some 5, some 6, some 7] 1 1 3 ⟨1⟩ 2 (by decide)).2.2.2.2.2 (by decide) (by decide)⟩

end failures_and_iterators

/-! ## Iteration over a `MapNode` and the identity of its keys -/

section map_iteration

variable {Node : Type}

theorem dropWhile_addr {V : Type} (pre : List (stl.node V)) (e : stl.node V)
    (rest : List (stl.node V))
    (h : ((pre ++ e :: rest).map (fun x => x.addr)).Nodup) :
    (pre ++ e :: rest).dropWhile (fun x => !(x.addr == e.addr)) = e :: rest := by
  induction pre with
  | nil => simp [List.dropWhile_cons]
  | cons x xs ih =>
    rw [List.cons_append, List.map_cons, List.nodup_cons] at h
    have hne : (x.addr == e.addr) = false := by
      rw [beq_eq_false_iff_ne]
      intro hxe
      apply h.1
      rw [hxe]
      exact List.mem_map_of_mem (fun x : stl.node V => x.addr) (by simp)
    rw [List.cons_append, List.dropWhile_cons]
    simp only [hne, Bool.not_false, if_true]
    exact ih h.2

theorem next_of_split {V : Type} (pre : List (stl.node V)) (e : stl.node V)
    (rest : List (stl.node V))
    (h : ((pre ++ e :: rest).map (fun x => x.addr)).Nodup) :
    stl.next (pre ++ e :: rest) (some e.addr) = some (stl.begin rest) := by
  simp only [stl.next, dropWhile_addr pre e rest h]

theorem tree_visit_suffix (rest : List (stl.node (tree.KeyValuePair Node))) :
    ∀ (pre : List (stl.node (tree.KeyValuePair Node))) (extra : Nat),
      ((pre ++ rest).map (fun x => x.addr)).Nodup →
      (⟨pre ++ rest⟩ : tree.MapNode Node).visit (rest.length + 1 + extra) (stl.begin rest)
        = some (.ok (rest.map (fun e => e.second))) := by
  induction rest with
  | nil =>
    intro pre extra _
    have h : (0 : Nat) + 1 + extra = extra + 1 := by omega
    simp only [List.length_nil, h, tree.MapNode.visit, tree.MapNode.end_, stl.begin,
      List.head?_nil, Option.map_none', if_true, List.map_nil]
  | cons x xs ih =>
    intro pre extra hnd
    have h : (x :: xs).length + 1 + extra = (xs.length + 1 + extra) + 1 := by
      simp only [List.length_cons]; omega
    have hb : stl.begin (x :: xs) = some x.addr := rfl
    have hne : (some x.addr : stl.iterator)
        ≠ (⟨pre ++ x :: xs⟩ : tree.MapNode Node).end_ := by
      simp [tree.MapNode.end_]
    have hd : (⟨pre ++ x :: xs⟩ : tree.MapNode Node).deref (some x.addr) = .ok x.second := by
      simp only [tree.MapNode.deref, stl.get_of_mem hnd (List.mem_append_right pre
        (List.mem_cons_self x xs))]
    have hpre : pre ++ x :: xs = (pre ++ [x]) ++ xs := by simp
    rw [h, hb, tree.MapNode.visit, if_neg hne, hd]
    simp only [next_of_split pre x xs hnd]
    rw [hpre, ih (pre ++ [x]) extra (by rw [← hpre]; exact hnd)]
    simp

theorem find?_key_of_mem {V : Type} {s : List (stl.node V)}
    (h : (s.map (fun e => e.first)).Nodup) {e : stl.node V} (he : e ∈ s) :
    s.find? (fun x => x.first == e.first) = some e := by
  induction s with
  | nil => cases he
  | cons x xs ih =>
    rw [List.map_cons, List.nodup_cons] at h
    rcases List.mem_cons.1 he with hx | hx
    · subst hx; simp
    · have hne : (x.first == e.first) = false := by
        rw [beq_eq_false_iff_ne]
        intro hxe
        exact h.1 (hxe ▸ List.mem_map_of_mem (fun e => e.first) hx)
      rw [List.find?_cons, hne]
      exact ih h.2 hx

theorem tree_key_of_mem {m : tree.MapNode Node}
    (hwf : stl.WF tree.KeyValuePair.stored m.m_nodes)
    {e : stl.node (tree.KeyValuePair Node)} (he : e ∈ m.m_nodes) :
    e.second.key m = .ok e.first := by
  simp only [tree.KeyValuePair.key, (hwf.2.2 e he).1, stl.get_of_mem hwf.2.1 he]

/-- C13. Keys are unique in a `MapNode`.  On every map reached from the empty
map by `insert`, `erase` and `clear` calls, the loop from `begin()` to `end()`
(with any fuel above the size) visits exactly `size()` entries, the keys they
report are pairwise distinct, and the entries are those of the keys the
history leaves bound, each with the node bound to it. -/
theorem keys_unique_in_iteration (ops : List (Op Node)) (extra : Nat) :
    ∃ (entries : List (tree.KeyValuePair Node)) (keys : List key_type),
      (tree.MapNode.run ops).visit ((tree.MapNode.run ops).size + 1 + extra)
          (tree.MapNode.run ops).begin = some (.ok entries)
      ∧ entries.length = (tree.MapNode.run ops).size
      ∧ entries.map (fun kv => kv.key (tree.MapNode.run ops))
          = keys.map (fun k => (.ok k : Except Fault key_type))
      ∧ keys.Nodup
      ∧ (∀ k, k ∈ keys ↔ bound ops k ≠ none)
      ∧ ∀ k n, bound ops k = some n ↔
          ∃ kv ∈ entries, kv.key (tree.MapNode.run ops) = .ok k ∧ kv.value = .ok n := by
  have hwf := tree_run_WF ops
  have hlk := tree_run_lookup ops
  generalize tree.MapNode.run ops = m at hwf hlk ⊢
  have hvisit := tree_visit_suffix m.m_nodes [] extra (by simpa using hwf.2.1)
  have hkeys : ∀ l : List (stl.node (tree.KeyValuePair Node)), (∀ e ∈ l, e ∈ m.m_nodes) →
      (l.map (fun e => e.second)).map (fun kv => kv.key m)
        = (l.map (fun e => e.first)).map (fun k => (.ok k : Except Fault key_type)) := by
    intro l hl
    rw [List.map_map, List.map_map]
    apply List.map_congr_left
    intro e he
    exact tree_key_of_mem hwf (hl e he)
  have hbound : ∀ k n, bound ops k = some n ↔
      ∃ e ∈ m.m_nodes, e.first = k ∧ e.second.m_value = some n := by
    intro k n
    rw [← hlk k]
    simp only [tree.MapNode.lookup]
    constructor
    · intro h
      cases hf : m.m_nodes.find? (fun e => e.first == k) with
      | none => simp [hf] at h
      | some e =>
        refine ⟨e, List.mem_of_find?_eq_some hf, stl.key_eq_of_find? hf, ?_⟩
        simpa [hf] using h
    · rintro ⟨e, he, hk, hv⟩
      subst hk
      rw [find?_key_of_mem hwf.1 he]
      simpa using hv
  refine ⟨m.m_nodes.map (fun e => e.second), m.m_nodes.map (fun e => e.first), ?_, ?_, ?_,
    hwf.1, ?_, ?_⟩
  · simpa [tree.MapNode.size, tree.MapNode.begin] using hvisit
  · simp [tree.MapNode.size]
  · exact hkeys _ (fun _ h => h)
  · intro k
    constructor
    · intro hk
      obtain ⟨e, he, hek⟩ := List.mem_map.1 hk
      have hv := (hwf.2.2 e he).2
      cases hval : e.second.m_value with
      | none => simp [hval] at hv
      | some n =>
        have := (hbound k n).2 ⟨e, he, hek, hval⟩
        rw [this]
        simp
    · intro hk
      cases hb : bound ops k with
      | none => exact absurd hb hk
      | some n =>
        obtain ⟨e, he, hek, _⟩ := (hbound k n).1 hb
        exact List.mem_map.2 ⟨e, he, hek⟩
  · intro k n
    rw [hbound]
    constructor
    · rintro ⟨e, he, hk, hv⟩
      refine ⟨e.second, List.mem_map_of_mem _ he, ?_, ?_⟩
      · rw [tree_key_of_mem hwf he, hk]
      · simp [tree.KeyValuePair.value, hv, unique_ptr.deref]
    · rintro ⟨kv, hkv, hk, hv⟩
      obtain ⟨e, he, rfl⟩ := List.mem_map.1 hkv
      refine ⟨e, he, ?_, ?_⟩
      · rw [tree_key_of_mem hwf he] at hk
        exact Except.ok.inj hk
      · cases hval : e.second.m_value with
        | none => simp [tree.KeyValuePair.value, hval, unique_ptr.deref] at hv
        | some x =>
          simp only [tree.KeyValuePair.value, hval, unique_ptr.deref, Except.ok.injEq] at hv
          rw [hv]

theorem tree_spares_find? {m : tree.MapNode Node} {k : key_type}
    {e : stl.node (tree.KeyValuePair Node)}
    (h : m.m_nodes.find? (fun x => x.first == k) = some e) (op : Op Node)
    (hs : op.spares k = true) :
    (m.apply op).m_nodes.find? (fun x => x.first == k) = some e := by
  cases op with
  | insert key node =>
    cases node with
    | none => simpa [tree.MapNode.apply, tree_insert_null] using h
    | some x =>
      cases hf : m.m_nodes.find? (fun e => e.first == key) with
      | some e2 => simpa [tree.MapNode.apply, tree_insert_present x hf] using h
      | none =>
        have hne : (key == k) = false := by
          rw [beq_eq_false_iff_ne]
          intro hk
          rw [hk, h] at hf
          cases hf
        simp only [tree.MapNode.apply, tree_insert_absent x hf]
        rw [stl.find?_insertAt_of_false _ hne]
        exact h
  | erase key =>
    have hne : k ≠ key := by
      intro hk
      simp [Op.spares, hk] at hs
    simp only [tree.MapNode.apply, tree.MapNode.erase, stl.erase]
    rw [stl.find?_key_filter_ne _ hne]
    exact h
  | clear => simp [Op.spares] at hs

theorem cpp_spares_find? (bucket : key_type → List key_type → Nat) {m : cpp.MapNode Node}
    {k : key_type} {e : stl.node (cpp.KeyValuePair Node)}
    (h : m.m_nodes.find? (fun x => x.first == k) = some e) (op : Op Node)
    (hs : op.spares k = true) :
    (m.apply bucket op).m_nodes.find? (fun x => x.first == k) = some e := by
  cases op with
  | insert key node =>
    cases node with
    | none => simpa [cpp.MapNode.apply, cpp_insert_null] using h
    | some x =>
      cases hf : m.m_nodes.find? (fun e => e.first == key) with
      | some e2 => simpa [cpp.MapNode.apply, cpp_insert_present bucket x hf] using h
      | none =>
        have hne : (key == k) = false := by
          rw [beq_eq_false_iff_ne]
          intro hk
          rw [hk, h] at hf
          cases hf
        simp only [cpp.MapNode.apply, cpp_insert_absent bucket x hf]
        rw [stl.find?_insertAt_of_false _ hne]
        exact h
  | erase key =>
    have hne : k ≠ key := by
      intro hk
      simp [Op.spares, hk] at hs
    simp only [cpp.MapNode.apply, cpp.MapNode.erase, stl.erase]
    rw [stl.find?_key_filter_ne _ hne]
    exact h
  | clear => simp [Op.spares] at hs

theorem tree_foldl_spares (k : key_type) (later : List (Op Node)) :
    ∀ (m : tree.MapNode Node) (e : stl.node (tree.KeyValuePair Node)),
      m.m_nodes.find? (fun x => x.first == k) = some e →
      (∀ op ∈ later, op.spares k = true) →
      (later.foldl tree.MapNode.apply m).m_nodes.find? (fun x => x.first == k) = some e := by
  induction later with
  | nil => intro m e h _; exact h
  | cons op rest ih =>
    intro m e h hl
    exact ih _ e (tree_spares_find? h op (hl op (List.mem_cons_self _ _)))
      (fun o ho => hl o (List.mem_cons_of_mem _ ho))

theorem cpp_foldl_spares (bucket : key_type → List key_type → Nat) (k : key_type)
    (later : List (Op Node)) :
    ∀ (m : cpp.MapNode Node) (e : stl.node (cpp.KeyValuePair Node)),
      m.m_nodes.find? (fun x => x.first == k) = some e →
      (∀ op ∈ later, op.spares k = true) →
      (later.foldl (cpp.MapNode.apply bucket) m).m_nodes.find? (fun x => x.first == k)
        = some e := by
  induction later with
  | nil => intro m e h _; exact h
  | cons op rest ih =>
    intro m e h hl
    exact ih _ e (cpp_spares_find? bucket h op (hl op (List.mem_cons_self _ _)))
      (fun o ho => hl o (List.mem_cons_of_mem _ ho))

/-- C14. Stable key identity, in both classes.  After a successful
`insert(k, n)` on a map reached from the empty map, and after any later calls
that are inserts (failed ones included) or erases of other keys, `find(k)`
still returns the iterator the insert returned, and the entry it designates
reports `key()` equal to `k` and `value()` equal to `n`. -/
theorem stable_key_identity (bucket : key_type → List key_type → Nat)
    (ops later : List (Op Node)) (k : key_type) (n : Node)
    (ht : (tree.MapNode.run ops).find k = (tree.MapNode.run ops).end_)
    (hc : (cpp.MapNode.run bucket ops).find k = (cpp.MapNode.run bucket ops).end_)
    (hl : ∀ op ∈ later, op.spares k = true) :
    (∃ kv, ((tree.MapNode.run ops).insert k (some n)).ret
          = .ok ((tree.MapNode.run (ops ++ Op.insert k (some n) :: later)).find k, true)
        ∧ (tree.MapNode.run (ops ++ Op.insert k (some n) :: later)).find k
          ≠ (tree.MapNode.run (ops ++ Op.insert k (some n) :: later)).end_
        ∧ (tree.MapNode.run (ops ++ Op.insert k (some n) :: later)).deref
            ((tree.MapNode.run (ops ++ Op.insert k (some n) :: later)).find k) = .ok kv
        ∧ kv.key (tree.MapNode.run (ops ++ Op.insert k (some n) :: later)) = .ok k
        ∧ kv.value = .ok n)
    ∧ (∃ kv, ((cpp.MapNode.run bucket ops).insert bucket k (some n)).ret
          = .ok ((cpp.MapNode.run bucket (ops ++ Op.insert k (some n) :: later)).find k, true)
        ∧ (cpp.MapNode.run bucket (ops ++ Op.insert k (some n) :: later)).find k
          ≠ (cpp.MapNode.run bucket (ops ++ Op.insert k (some n) :: later)).end_
        ∧ (cpp.MapNode.run bucket (ops ++ Op.insert k (some n) :: later)).deref
            ((cpp.MapNode.run bucket (ops ++ Op.insert k (some n) :: later)).find k) = .ok kv
        ∧ kv.key = k
        ∧ kv.value = .ok n) := by
  constructor
  · have hwf := tree_run_WF (ops ++ Op.insert k (some n) :: later)
    have hrun : tree.MapNode.run (ops ++ Op.insert k (some n) :: later)
        = later.foldl tree.MapNode.apply ((tree.MapNode.run ops).insert k (some n)).self := by
      simp [tree.MapNode.run, List.foldl_append, tree.MapNode.apply]
    have hf : (tree.MapNode.run ops).m_nodes.find? (fun e => e.first == k) = none :=
      (find_eq_none_iff _ _).1 ht
    rw [hrun] at hwf ⊢
    rw [tree_insert_absent n hf] at hwf ⊢
    have h1 := stl.find?_insertAt_of_true
      (p := fun e : stl.node (tree.KeyValuePair Node) => e.first == k)
      (i := stl.ordered k ((tree.MapNode.run ops).m_nodes.map (fun e => e.first)))
      (e := ⟨stl.fresh (tree.MapNode.run ops).m_nodes, k,
        ⟨some (stl.fresh (tree.MapNode.run ops).m_nodes), some n⟩⟩)
      (tree.MapNode.run ops).m_nodes (by simp)
      (fun x hx => by simpa using List.find?_eq_none.1 hf x hx)
    have h2 := tree_foldl_spares k later _ _ h1 hl
    obtain ⟨hfind, hget⟩ := stl.get_find_of_find? hwf h2
    refine ⟨⟨some (stl.fresh (tree.MapNode.run ops).m_nodes), some n⟩, ?_, ?_, ?_, ?_, rfl⟩
    · simp only [tree.MapNode.find, hfind]
    · simp only [tree.MapNode.find, hfind, tree.MapNode.end_]
      exact fun h => Option.noConfusion h
    · simp only [tree.MapNode.deref, tree.MapNode.find, hget]
    · exact tree_key_of_mem hwf (List.mem_of_find?_eq_some h2)
  · have hwf := cpp_run_WF bucket (ops ++ Op.insert k (some n) :: later)
    have hrun : cpp.MapNode.run bucket (ops ++ Op.insert k (some n) :: later)
        = later.foldl (cpp.MapNode.apply bucket)
            ((cpp.MapNode.run bucket ops).insert bucket k (some n)).self := by
      simp [cpp.MapNode.run, List.foldl_append, cpp.MapNode.apply]
    have hf : (cpp.MapNode.run bucket ops).m_nodes.find? (fun e => e.first == k) = none :=
      (find_eq_none_iff _ _).1 hc
    rw [hrun] at hwf ⊢
    rw [cpp_insert_absent bucket n hf] at hwf ⊢
    have h1 := stl.find?_insertAt_of_true
      (p := fun e : stl.node (cpp.KeyValuePair Node) => e.first == k)
      (i := bucket k ((cpp.MapNode.run bucket ops).m_nodes.map (fun e => e.first)))
      (e := ⟨stl.fresh (cpp.MapNode.run bucket ops).m_nodes, k, ⟨k, some n⟩⟩)
      (cpp.MapNode.run bucket ops).m_nodes (by simp)
      (fun x hx => by simpa using List.find?_eq_none.1 hf x hx)
    have h2 := cpp_foldl_spares bucket k later _ _ h1 hl
    obtain ⟨hfind, hget⟩ := stl.get_find_of_find? hwf h2
    refine ⟨⟨k, some n⟩, ?_, ?_, ?_, rfl, rfl⟩
    · simp only [cpp.MapNode.find, hfind]
    · simp only [cpp.MapNode.find, hfind, cpp.MapNode.end_]
      exact fun h => Option.noConfusion h
    · simp only [cpp.MapNode.deref, cpp.MapNode.find, hget]

theorem stable_key_identity_witness :
    (tree.MapNode.run [Op.insert "a" (some 1)] : tree.MapNode Nat).find "b"
        = (tree.MapNode.run [Op.insert "a" (some 1)] : tree.MapNode Nat).end_
    ∧ (cpp.MapNode.run (fun _ _ => 0) [Op.insert "a" (some 1)] : cpp.MapNode Nat).find "b"
        = (cpp.MapNode.run (fun _ _ => 0) [Op.insert "a" (some 1)] : cpp.MapNode Nat).end_
    ∧ (∀ op ∈ [Op.insert "c" (some 3), Op.insert "b" (some 4), Op.erase "a", Op.insert "b" none],
        @Op.spares Nat "b" op = true)
    ∧ ∃ kv : tree.KeyValuePair Nat,
        (tree.MapNode.run ([Op.insert "a" (some 1)] ++ Op.insert "b" (some 2) ::
            [Op.insert "c" (some 3), Op.insert "b" (some 4), Op.erase "a",
              Op.insert "b" none])).deref
            ((tree.MapNode.run ([Op.insert "a" (some 1)] ++ Op.insert "b" (some 2) ::
              [Op.insert "c" (some 3), Op.insert "b" (some 4), Op.erase "a",
                Op.insert "b" none])).find "b") = .ok kv
        ∧ kv.key (tree.MapNode.run ([Op.insert "a" (some 1)] ++ Op.insert "b" (some 2) ::
            [Op.insert "c" (some 3), Op.insert "b" (some 4), Op.erase "a",
              Op.insert "b" none])) = .ok "b"
        ∧ kv.value = .ok 2 :=
  ⟨by decide, by decide, by decide,
    (stable_key_identity (fun _ _ => 0) [Op.insert "a" (some 1)]
      [Op.insert "c" (some 3), Op.insert "b" (some 4), Op.erase "a", Op.insert "b" none]
      "b" 2 (by decide) (by decide) (by decide)).1.elim
      (fun kv h => ⟨kv, h.2.2.1, h.2.2.2.1, h.2.2.2.2⟩)⟩

end map_iteration

/-! ## A list nested in a map -/

section nested

/-- C16. Nested round trip.  Build a `ListNode` by `add(v_0)`, ...,
`add(v_{k-1})` with non-null nodes and insert it under the key `x` into an
empty `MapNode`.  The list built has size `k` and its loop from `begin()` to
`end()` visits `v_0, ..., v_{k-1}`.  In the map `find(x)` is not `end()`, the
entry found reports `key()` equal to `x`, and its `value()` is a `ListNode` of
size `k` whose loop from `begin()` to `end()` visits `v_0, ..., v_{k-1}` in
this order (with any fuel above `k`). -/
theorem nested_round_trip (vs : List object) (x : key_type) :
    (tree.ListNode.run (vs.map some)).size = vs.length
    ∧ (∀ extra, (tree.ListNode.run (vs.map some)).visit (vs.length + 1 + extra)
        (tree.ListNode.run (vs.map some)).begin = some (.ok vs))
    ∧ (({} : tree.MapNode object).insert x
          (some (.list (tree.ListNode.run (vs.map some))))).ret
        = .ok ((({} : tree.MapNode object).insert x
          (some (.list (tree.ListNode.run (vs.map some))))).self.find x, true)
    ∧ (({} : tree.MapNode object).insert x
          (some (.list (tree.ListNode.run (vs.map some))))).self.find x
        ≠ (({} : tree.MapNode object).insert x
          (some (.list (tree.ListNode.run (vs.map some))))).self.end_
    ∧ ∃ kv node l,
        (({} : tree.MapNode object).insert x
            (some (.list (tree.ListNode.run (vs.map some))))).self.deref
          ((({} : tree.MapNode object).insert x
            (some (.list (tree.ListNode.run (vs.map some))))).self.find x) = .ok kv
        ∧ kv.key (({} : tree.MapNode object).insert x
            (some (.list (tree.ListNode.run (vs.map some))))).self = .ok x
        ∧ kv.value = .ok node
        ∧ node.as_list = some l
        ∧ l.size = vs.length
        ∧ ∀ extra, l.visit (vs.length + 1 + extra) l.begin = some (.ok vs) := by
  have hrun : (tree.ListNode.run (vs.map some) : tree.ListNode object) = ⟨vs.map some⟩ := by
    have := list_run_some vs
    cases hr : (tree.ListNode.run (vs.map some) : tree.ListNode object)
    rw [hr] at this
    simpa using this
  have hsize : (tree.ListNode.run (vs.map some)).size = vs.length := by
    rw [hrun]; simp [tree.ListNode.size]
  have hvisit : ∀ extra, (tree.ListNode.run (vs.map some)).visit (vs.length + 1 + extra)
      (tree.ListNode.run (vs.map some)).begin = some (.ok vs) := by
    intro extra
    rw [hrun]
    have := list_visit_suffix vs [] extra
    simpa [tree.ListNode.begin] using this
  have hf : (({} : tree.MapNode object)).m_nodes.find? (fun e => e.first == x) = none := rfl
  refine ⟨hsize, hvisit, ?_⟩
  rw [tree_insert_absent _ hf]
  have hnodes : stl.insertAt
      (stl.ordered x (List.map (fun e => e.first) ({} : tree.MapNode object).m_nodes))
      ⟨stl.fresh ({} : tree.MapNode object).m_nodes, x,
        (⟨some (stl.fresh ({} : tree.MapNode object).m_nodes),
          some (object.list (tree.ListNode.run (vs.map some)))⟩ : tree.KeyValuePair object)⟩
      ({} : tree.MapNode object).m_nodes
      = [⟨1, x, ⟨some 1, some (object.list (tree.ListNode.run (vs.map some)))⟩⟩] := by
    simp [stl.insertAt, stl.fresh]
  have hfresh : stl.fresh ({} : tree.MapNode object).m_nodes = 1 := rfl
  rw [hnodes, hfresh]
  have hfind : (⟨[⟨1, x, ⟨some 1, some (object.list (tree.ListNode.run (vs.map some)))⟩⟩]⟩ :
      tree.MapNode object).find x = some 1 := by
    simp [tree.MapNode.find, stl.find]
  rw [hfind]
  refine ⟨rfl, by simp [tree.MapNode.end_], ⟨some 1, some (.list _)⟩, .list _, _, ?_, ?_, rfl,
    rfl, hsize, hvisit⟩
  · simp [tree.MapNode.deref, stl.get]
  · simp [tree.KeyValuePair.key, stl.get]

theorem nested_round_trip_witness :
    (({} : tree.MapNode object).insert "x"
        (some (.list (tree.ListNode.run
          ([object.leaf 1, object.leaf 2, object.leaf 3].map some))))).self.find "x"
      ≠ (({} : tree.MapNode object).insert "x"
        (some (.list (tree.ListNode.run
          ([object.leaf 1, object.leaf 2, object.leaf 3].map some))))).self.end_
    ∧ (tree.ListNode.run ([object.leaf 1, object.leaf 2, object.leaf 3].map some)).visit
        (3 + 1 + 0)
        (tree.ListNode.run ([object.leaf 1, object.leaf 2, object.leaf 3].map some)).begin
      = some (.ok [object.leaf 1, object.leaf 2, object.leaf 3]) :=
  ⟨(nested_round_trip [object.leaf 1, object.leaf 2, object.leaf 3] "x").2.2.2.1,
    (nested_round_trip [object.leaf 1, object.leaf 2, object.leaf 3] "x").2.1 0⟩

end nested

/-! ## Entries are never placeholders; unchecked and checked indexing -/

section placeholders_and_indexing

variable {Node : Type}

theorem tree_value_of_mem {m : tree.MapNode Node}
    (hwf : stl.WF tree.KeyValuePair.stored m.m_nodes)
    {e : stl.node (tree.KeyValuePair Node)} (he : e ∈ m.m_nodes) :
    ∃ n, e.second.m_value = some n ∧ e.second.value = .ok n := by
  have hv := (hwf.2.2 e he).2
  cases hval : e.second.m_value with
  | none => simp [hval] at hv
  | some n => exact ⟨n, rfl, by simp [tree.KeyValuePair.value, hval, unique_ptr.deref]⟩

/-- C21. No placeholder entry survives `MapNode::insert`.  On every map reached
from the empty map by `insert`, `erase` and `clear` calls (rejected and
duplicate inserts included), every stored `KeyValuePair` differs from the
default-constructed one: its node pointer and its key pointer are not null,
`key()` returns the key it is stored under and `value()` returns a node.  So
`key()` and `value()` return for every entry the loop from `begin()` to `end()`
visits, and for the entry of every `find` that is not `end()`. -/
theorem no_placeholder_entry (ops : List (Op Node)) (k : key_type) (extra : Nat) :
    (∀ e ∈ (tree.MapNode.run ops).m_nodes,
        e.second ≠ ({} : tree.KeyValuePair Node)
        ∧ e.second.m_value ≠ none
        ∧ e.second.m_key ≠ none
        ∧ e.second.key (tree.MapNode.run ops) = .ok e.first
        ∧ ∃ n, e.second.value = .ok n)
    ∧ (∃ entries : List (tree.KeyValuePair Node),
        (tree.MapNode.run ops).visit ((tree.MapNode.run ops).size + 1 + extra)
          (tree.MapNode.run ops).begin = some (.ok entries)
        ∧ ∀ kv ∈ entries,
            (∃ key, kv.key (tree.MapNode.run ops) = .ok key) ∧ ∃ n, kv.value = .ok n)
    ∧ ((tree.MapNode.run ops).find k ≠ (tree.MapNode.run ops).end_ →
        ∃ kv n, (tree.MapNode.run ops).deref ((tree.MapNode.run ops).find k) = .ok kv
          ∧ kv.key (tree.MapNode.run ops) = .ok k
          ∧ kv.value = .ok n) := by
  have hwf := tree_run_WF ops
  generalize tree.MapNode.run ops = m at hwf ⊢
  refine ⟨?_, ?_, ?_⟩
  · intro e he
    obtain ⟨n, hn, hv⟩ := tree_value_of_mem hwf he
    have hk := (hwf.2.2 e he).1
    refine ⟨?_, ?_, ?_, tree_key_of_mem hwf he, n, hv⟩
    · intro h
      rw [h] at hn
      cases hn
    · rw [hn]; exact fun h => Option.noConfusion h
    · rw [hk]; exact fun h => Option.noConfusion h
  · refine ⟨m.m_nodes.map (fun e => e.second), ?_, ?_⟩
    · have hvisit := tree_visit_suffix m.m_nodes [] extra (by simpa using hwf.2.1)
      simpa [tree.MapNode.size, tree.MapNode.begin] using hvisit
    · intro kv hkv
      obtain ⟨e, he, rfl⟩ := List.mem_map.1 hkv
      obtain ⟨n, _, hv⟩ := tree_value_of_mem hwf he
      exact ⟨⟨e.first, tree_key_of_mem hwf he⟩, n, hv⟩
  · intro hne
    obtain ⟨e, he, _⟩ := find?_of_find_ne_none hne
    have hmem := List.mem_of_find?_eq_some he
    obtain ⟨n, _, hv⟩ := tree_value_of_mem hwf hmem
    refine ⟨e.second, n, ?_, ?_, hv⟩
    · simp only [tree.MapNode.deref, tree.MapNode.find, (stl.get_find_of_find? hwf he).2]
    · rw [tree_key_of_mem hwf hmem, stl.key_eq_of_find? he]

theorem no_placeholder_entry_witness :
    (tree.MapNode.run [Op.insert "a" (some 1), Op.insert "a" (some 2), Op.insert "b" none,
        Op.erase "c"] : tree.MapNode Nat).find "a"
      ≠ (tree.MapNode.run [Op.insert "a" (some 1), Op.insert "a" (some 2), Op.insert "b" none,
        Op.erase "c"] : tree.MapNode Nat).end_
    ∧ ∃ kv n,
        (tree.MapNode.run [Op.insert "a" (some 1), Op.insert "a" (some 2), Op.insert "b" none,
          Op.erase "c"] : tree.MapNode Nat).deref
          ((tree.MapNode.run [Op.insert "a" (some 1), Op.insert "a" (some 2), Op.insert "b" none,
            Op.erase "c"] : tree.MapNode Nat).find "a") = .ok kv
        ∧ kv.key (tree.MapNode.run [Op.insert "a" (some 1), Op.insert "a" (some 2),
            Op.insert "b" none, Op.erase "c"]) = .ok "a"
        ∧ kv.value = .ok n :=
  ⟨by decide,
    (no_placeholder_entry [Op.insert "a" (some 1), Op.insert "a" (some 2), Op.insert "b" none,
      Op.erase "c"] "a" 0).2.2 (by decide)⟩

/-- C23. Unchecked and checked indexing agree in range.  On every list and for
every `i < size()`, `operator[](i)` and `at(i)` end the same way, and neither
changes the list; on every list built by `add` calls both return the same
node. -/
theorem index_agrees_with_at (l : tree.ListNode Node) (ps : List (unique_ptr Node))
    (i : Nat) :
    (i < l.size → (l.index i).2 = (l.at i).2)
    ∧ (l.index i).1 = l
    ∧ (l.at i).1 = l
    ∧ (i < (tree.ListNode.run ps).size →
        ∃ n, ((tree.ListNode.run ps).index i).2 = .ok n
          ∧ ((tree.ListNode.run ps).at i).2 = .ok n
          ∧ ((tree.ListNode.run ps).index i).1 = tree.ListNode.run ps
          ∧ ((tree.ListNode.run ps).at i).1 = tree.ListNode.run ps) := by
  refine ⟨?_, list_index_self l i, list_at_self l i, ?_⟩
  · intro hi
    simp only [tree.ListNode.size] at hi
    rw [list_index_eq, list_at_eq]
    cases h : l.m_nodes[i]? with
    | none => exact absurd (List.getElem?_eq_none_iff.1 h) (Nat.not_le.2 hi)
    | some p => cases p <;> rfl
  · intro hi
    obtain ⟨n, hat, hslot⟩ := at_bounds_checked_aux ps i hi
    refine ⟨n, ?_, hat, list_index_self _ i, list_at_self _ i⟩
    rw [list_index_eq, hslot]

theorem index_agrees_with_at_witness :
    1 < (tree.ListNode.run [some 5, none, some 7] : tree.ListNode Nat).size
    ∧ ((tree.ListNode.run [some 5, none, some 7] : tree.ListNode Nat).index 1).2
        = ((tree.ListNode.run [some 5, none, some 7] : tree.ListNode Nat).at 1).2 :=
  ⟨by decide,
    (index_agrees_with_at (tree.ListNode.run [some 5, none, some 7]) [some 5, none, some 7]
      1).1 (by decide)⟩

end placeholders_and_indexing

/-! ## The two `MapNode` classes return what the calls alone determine -/

section equivalence

variable {Node : Type}

theorem cpp_apply_lookup (bucket : key_type → List key_type → Nat) {m : cpp.MapNode Node} {f : key_type → Option Node}
    (h : stl.WF cpp.KeyValuePair.stored m.m_nodes) (hf : ∀ k, m.lookup k = f k)
    (op : Op Node) (k : key_type) : (m.apply bucket op).lookup k = bind_step f op k := by
  cases op with
  | insert key node =>
    cases node with
    | none =>
      simp only [cpp.MapNode.apply, cpp_insert_null, bind_step]
      split
      · next hk => subst hk; rw [hf]; cases f k <;> rfl
      · exact hf k
    | some n =>
      cases hfind : m.m_nodes.find? (fun e => e.first == key) with
      | some e =>
        have hval : e.second.m_value.isSome = true :=
          (h.2.2 e (List.mem_of_find?_eq_some hfind)).2
        have hkey : f key = e.second.m_value := by
          rw [← hf key]; simp [cpp.MapNode.lookup, hfind]
        simp only [cpp.MapNode.apply, cpp_insert_present bucket n hfind, bind_step]
        split
        · next hk =>
          subst hk; rw [hf, hkey]
          cases hv : e.second.m_value with
          | none => simp [hv] at hval
          | some x => rfl
        · exact hf k
      | none =>
        have hkey : f key = none := by
          rw [← hf key]; simp [cpp.MapNode.lookup, hfind]
        simp only [cpp.MapNode.apply, cpp_insert_absent bucket n hfind, bind_step]
        split
        · next hk =>
          subst hk
          rw [hkey]
          simp only [cpp.MapNode.lookup]
          rw [stl.find?_insertAt_of_true _ (by simp)
            (fun x hx => by simpa using List.find?_eq_none.1 hfind x hx)]
          rfl
        · next hk =>
          rw [← hf k]
          simp only [cpp.MapNode.lookup]
          rw [stl.find?_insertAt_of_false _ (by simpa using fun h2 : key = k => hk h2.symm)]
  | erase key =>
    simp only [cpp.MapNode.apply, cpp.MapNode.erase, stl.erase, bind_step, cpp.MapNode.lookup]
    split
    · next hk => subst hk; rw [stl.find?_key_filter_self]; rfl
    · next hk => rw [stl.find?_key_filter_ne _ hk]; exact hf k
  | clear => rfl

theorem tree_lookup_none_iff {m : tree.MapNode Node}
    (hwf : stl.WF tree.KeyValuePair.stored m.m_nodes) (k : key_type) :
    m.lookup k = none ↔ m.m_nodes.find? (fun e => e.first == k) = none := by
  simp only [tree.MapNode.lookup]
  cases hf : m.m_nodes.find? (fun e => e.first == k) with
  | none => simp
  | some e =>
    have hv := (hwf.2.2 e (List.mem_of_find?_eq_some hf)).2
    cases hval : e.second.m_value with
    | none => simp [hval] at hv
    | some n => simp [hval]

theorem tree_see_find {m : tree.MapNode Node}
    (hwf : stl.WF tree.KeyValuePair.stored m.m_nodes) (k : key_type) :
    m.see (m.find k)
      = .ok ((m.lookup k).map (fun x => ((.ok k : Except Fault key_type), .ok x))) := by
  cases hf : m.m_nodes.find? (fun e => e.first == k) with
  | none =>
    have h1 : m.find k = none := (find_eq_none_iff _ _).2 hf
    simp [tree.MapNode.see, h1, tree.MapNode.end_, tree.MapNode.lookup, hf]
  | some e =>
    have hmem := List.mem_of_find?_eq_some hf
    obtain ⟨hfind, hget⟩ := stl.get_find_of_find? hwf hf
    have hv := (hwf.2.2 e hmem).2
    have hkey : e.second.key m = .ok k := by
      have h := (hwf.2.2 e hmem).1
      simp only [tree.KeyValuePair.key, h, stl.get_of_mem hwf.2.1 hmem, stl.key_eq_of_find? hf]
    have hd : m.deref (m.find k) = .ok e.second := by
      simp only [tree.MapNode.deref, tree.MapNode.find, hget]
    have hne : m.find k ≠ m.end_ := by
      simp only [tree.MapNode.find, hfind, tree.MapNode.end_]
      exact fun h => Option.noConfusion h
    cases hval : e.second.m_value with
    | none => simp [hval] at hv
    | some n =>
      simp only [tree.MapNode.see, if_neg hne, hd, hkey, tree.MapNode.lookup, hf,
        Option.some_bind, hval, Option.map_some', tree.KeyValuePair.value, unique_ptr.deref]

theorem tree_apply_size {m : tree.MapNode Node}
    (hwf : stl.WF tree.KeyValuePair.stored m.m_nodes) (op : Op Node) :
    (m.apply op).size = count_step m.lookup m.size op := by
  cases op with
  | insert key node =>
    cases node with
    | none => simp [tree.MapNode.apply, tree_insert_null, count_step]
    | some x =>
      cases hf : m.m_nodes.find? (fun e => e.first == key) with
      | some e =>
        have hl : m.lookup key ≠ none := fun h => by
          rw [(tree_lookup_none_iff hwf key).1 h] at hf
          cases hf
        cases hlk : m.lookup key with
        | none => exact absurd hlk hl
        | some v => simp [tree.MapNode.apply, tree_insert_present x hf, count_step, hlk]
      | none =>
        have hl : m.lookup key = none := (tree_lookup_none_iff hwf key).2 hf
        simp [tree.MapNode.apply, tree_insert_absent x hf, count_step, hl, tree.MapNode.size,
          stl.length_insertAt]
  | erase key =>
    have hlen := stl.length_filter_key_add m.m_nodes key
    have hcnt := stl.erase_count hwf key
    simp only [stl.erase] at hcnt
    simp only [tree.MapNode.apply, tree.MapNode.erase, stl.erase, tree.MapNode.size, count_step]
    cases hf : m.m_nodes.find? (fun e => e.first == key) with
    | none =>
      have hl : m.lookup key = none := (tree_lookup_none_iff hwf key).2 hf
      have h0 : stl.find m.m_nodes key = none := (find_eq_none_iff _ _).2 hf
      rw [h0] at hcnt
      simp only [if_true] at hcnt
      simp only [hl, Option.isNone_none, if_true]
      omega
    | some e =>
      have hl : m.lookup key ≠ none := fun h => by
        rw [(tree_lookup_none_iff hwf key).1 h] at hf
        cases hf
      have h0 : stl.find m.m_nodes key ≠ none := fun h => by
        rw [(find_eq_none_iff _ _).1 h] at hf
        cases hf
      rw [if_neg h0] at hcnt
      cases hlk : m.lookup key with
      | none => exact absurd hlk hl
      | some v =>
        simp only [Option.isNone_some, Bool.false_eq_true, if_false]
        omega
  | clear => rfl

theorem isEmpty_eq_length_beq {α : Type} (l : List α) : l.isEmpty = (l.length == 0) := by
  cases l <;> rfl

theorem tree_call_returned {m : tree.MapNode Node}
    (hwf : stl.WF tree.KeyValuePair.stored m.m_nodes) (c : Call Node) :
    (m.call c).2 = returned_spec m.lookup m.size c := by
  cases c with
  | insert key node =>
    cases node with
    | none => simp [tree.MapNode.call, tree_insert_null, returned_spec]
    | some x =>
      cases hf : m.m_nodes.find? (fun e => e.first == key) with
      | some e =>
        have hfind : m.find key = some e.addr := (stl.get_find_of_find? hwf hf).1
        have hsee := tree_see_find hwf key
        rw [hfind] at hsee
        have hl : m.lookup key ≠ none := fun h => by
          rw [(tree_lookup_none_iff hwf key).1 h] at hf
          cases hf
        cases hlk : m.lookup key with
        | none => exact absurd hlk hl
        | some v =>
          simp only [tree.MapNode.call, tree_insert_present x hf, returned_spec, hsee, hlk,
            Option.map_some', Option.getD_some, Option.isNone_some]
      | none =>
        have hl : m.lookup key = none := (tree_lookup_none_iff hwf key).2 hf
        simp only [tree.MapNode.call, tree_insert_absent x hf, returned_spec, hl,
          Option.getD_none, Option.isNone_none]
        simp [tree.MapNode.see, tree.MapNode.end_, tree.MapNode.deref, stl.get_insertAt_new,
          tree.KeyValuePair.key, tree.KeyValuePair.value, unique_ptr.deref]
  | erase key =>
    have hcnt := stl.erase_count hwf key
    simp only [tree.MapNode.call, tree.MapNode.erase, returned_spec, hcnt]
    cases hf : m.m_nodes.find? (fun e => e.first == key) with
    | none =>
      have hl : m.lookup key = none := (tree_lookup_none_iff hwf key).2 hf
      have h0 : stl.find m.m_nodes key = none := (find_eq_none_iff _ _).2 hf
      simp [hl, h0]
    | some e =>
      have hl : m.lookup key ≠ none := fun h => by
        rw [(tree_lookup_none_iff hwf key).1 h] at hf
        cases hf
      have h0 : stl.find m.m_nodes key ≠ none := fun h => by
        rw [(find_eq_none_iff _ _).1 h] at hf
        cases hf
      cases hlk : m.lookup key with
      | none => exact absurd hlk hl
      | some v => simp [h0]
  | clear => rfl
  | find key =>
    have hsee := tree_see_find hwf key
    simp only [tree.MapNode.call, tree.MapNode.find_mut, returned_spec]
    simp only [tree.MapNode.find] at hsee
    rw [hsee]
  | size => rfl
  | empty =>
    simp only [tree.MapNode.call, returned_spec, tree.MapNode.empty, tree.MapNode.size,
      isEmpty_eq_length_beq]

theorem cpp_lookup_none_iff {m : cpp.MapNode Node}
    (hwf : stl.WF cpp.KeyValuePair.stored m.m_nodes) (k : key_type) :
    m.lookup k = none ↔ m.m_nodes.find? (fun e => e.first == k) = none := by
  simp only [cpp.MapNode.lookup]
  cases hf : m.m_nodes.find? (fun e => e.first == k) with
  | none => simp
  | some e =>
    have hv := (hwf.2.2 e (List.mem_of_find?_eq_some hf)).2
    cases hval : e.second.m_value with
    | none => simp [hval] at hv
    | some n => simp [hval]

theorem cpp_see_find {m : cpp.MapNode Node}
    (hwf : stl.WF cpp.KeyValuePair.stored m.m_nodes) (k : key_type) :
    m.see (m.find k)
      = .ok ((m.lookup k).map (fun x => ((.ok k : Except Fault key_type), .ok x))) := by
  cases hf : m.m_nodes.find? (fun e => e.first == k) with
  | none =>
    have h1 : m.find k = none := (find_eq_none_iff _ _).2 hf
    simp [cpp.MapNode.see, h1, cpp.MapNode.end_, cpp.MapNode.lookup, hf]
  | some e =>
    have hmem := List.mem_of_find?_eq_some hf
    obtain ⟨hfind, hget⟩ := stl.get_find_of_find? hwf hf
    have hv := (hwf.2.2 e hmem).2
    have hkey : e.second.key = k := by
      have h := (hwf.2.2 e hmem).1
      simp only [cpp.KeyValuePair.key, h, stl.key_eq_of_find? hf]
    have hd : m.deref (m.find k) = .ok e.second := by
      simp only [cpp.MapNode.deref, cpp.MapNode.find, hget]
    have hne : m.find k ≠ m.end_ := by
      simp only [cpp.MapNode.find, hfind, cpp.MapNode.end_]
      exact fun h => Option.noConfusion h
    cases hval : e.second.m_value with
    | none => simp [hval] at hv
    | some n =>
      simp only [cpp.MapNode.see, if_neg hne, hd, hkey, cpp.MapNode.lookup, hf,
        Option.some_bind, hval, Option.map_some', cpp.KeyValuePair.value, unique_ptr.deref]

theorem cpp_apply_size (bucket : key_type → List key_type → Nat) {m : cpp.MapNode Node}
    (hwf : stl.WF cpp.KeyValuePair.stored m.m_nodes) (op : Op Node) :
    (m.apply bucket op).size = count_step m.lookup m.size op := by
  cases op with
  | insert key node =>
    cases node with
    | none => simp [cpp.MapNode.apply, cpp_insert_null, count_step]
    | some x =>
      cases hf : m.m_nodes.find? (fun e => e.first == key) with
      | some e =>
        have hl : m.lookup key ≠ none := fun h => by
          rw [(cpp_lookup_none_iff hwf key).1 h] at hf
          cases hf
        cases hlk : m.lookup key with
        | none => exact absurd hlk hl
        | some v => simp [cpp.MapNode.apply, cpp_insert_present bucket x hf, count_step, hlk]
      | none =>
        have hl : m.lookup key = none := (cpp_lookup_none_iff hwf key).2 hf
        simp [cpp.MapNode.apply, cpp_insert_absent bucket x hf, count_step, hl, cpp.MapNode.size,
          stl.length_insertAt]
  | erase key =>
    have hlen := stl.length_filter_key_add m.m_nodes key
    have hcnt := stl.erase_count hwf key
    simp only [stl.erase] at hcnt
    simp only [cpp.MapNode.apply, cpp.MapNode.erase, stl.erase, cpp.MapNode.size, count_step]
    cases hf : m.m_nodes.find? (fun e => e.first == key) with
    | none =>
      have hl : m.lookup key = none := (cpp_lookup_none_iff hwf key).2 hf
      have h0 : stl.find m.m_nodes key = none := (find_eq_none_iff _ _).2 hf
      rw [h0] at hcnt
      simp only [if_true] at hcnt
      simp only [hl, Option.isNone_none, if_true]
      omega
    | some e =>
      have hl : m.lookup key ≠ none := fun h => by
        rw [(cpp_lookup_none_iff hwf key).1 h] at hf
        cases hf
      have h0 : stl.find m.m_nodes key ≠ none := fun h => by
        rw [(find_eq_none_iff _ _).1 h] at hf
        cases hf
      rw [if_neg h0] at hcnt
      cases hlk : m.lookup key with
      | none => exact absurd hlk hl
      | some v =>
        simp only [Option.isNone_some, Bool.false_eq_true, if_false]
        omega
  | clear => rfl

theorem cpp_call_returned (bucket : key_type → List key_type → Nat) {m : cpp.MapNode Node}
    (hwf : stl.WF cpp.KeyValuePair.stored m.m_nodes) (c : Call Node) :
    (m.call bucket c).2 = returned_spec m.lookup m.size c := by
  cases c with
  | insert key node =>
    cases node with
    | none => simp [cpp.MapNode.call, cpp_insert_null, returned_spec]
    | some x =>
      cases hf : m.m_nodes.find? (fun e => e.first == key) with
      | some e =>
        have hfind : m.find key = some e.addr := (stl.get_find_of_find? hwf hf).1
        have hsee := cpp_see_find hwf key
        rw [hfind] at hsee
        have hl : m.lookup key ≠ none := fun h => by
          rw [(cpp_lookup_none_iff hwf key).1 h] at hf
          cases hf
        cases hlk : m.lookup key with
        | none => exact absurd hlk hl
        | some v =>
          simp only [cpp.MapNode.call, cpp_insert_present bucket x hf, returned_spec, hsee, hlk,
            Option.map_some', Option.getD_some, Option.isNone_some]
      | none =>
        have hl : m.lookup key = none := (cpp_lookup_none_iff hwf key).2 hf
        simp only [cpp.MapNode.call, cpp_insert_absent bucket x hf, returned_spec, hl,
          Option.getD_none, Option.isNone_none]
        simp [cpp.MapNode.see, cpp.MapNode.end_, cpp.MapNode.deref, stl.get_insertAt_new,
          cpp.KeyValuePair.key, cpp.KeyValuePair.value, unique_ptr.deref]
  | erase key =>
    have hcnt := stl.erase_count hwf key
    simp only [cpp.MapNode.call, cpp.MapNode.erase, returned_spec, hcnt]
    cases hf : m.m_nodes.find? (fun e => e.first == key) with
    | none =>
      have hl : m.lookup key = none := (cpp_lookup_none_iff hwf key).2 hf
      have h0 : stl.find m.m_nodes key = none := (find_eq_none_iff _ _).2 hf
      simp [hl, h0]
    | some e =>
      have hl : m.lookup key ≠ none := fun h => by
        rw [(cpp_lookup_none_iff hwf key).1 h] at hf
        cases hf
      have h0 : stl.find m.m_nodes key ≠ none := fun h => by
        rw [(find_eq_none_iff _ _).1 h] at hf
        cases hf
      cases hlk : m.lookup key with
      | none => exact absurd hlk hl
      | some v => simp [h0]
  | clear => rfl
  | find key =>
    have hsee := cpp_see_find hwf key
    simp only [cpp.MapNode.call, returned_spec]
    rw [hsee]
  | size => rfl
  | empty =>
    simp only [cpp.MapNode.call, returned_spec, cpp.MapNode.empty, cpp.MapNode.size,
      isEmpty_eq_length_beq]

theorem cpp_visit_suffix (rest : List (stl.node (cpp.KeyValuePair Node))) :
    ∀ (pre : List (stl.node (cpp.KeyValuePair Node))) (extra : Nat),
      ((pre ++ rest).map (fun x => x.addr)).Nodup →
      (⟨pre ++ rest⟩ : cpp.MapNode Node).visit (rest.length + 1 + extra) (stl.begin rest)
        = some (.ok (rest.map (fun e => e.second))) := by
  induction rest with
  | nil =>
    intro pre extra _
    have h : (0 : Nat) + 1 + extra = extra + 1 := by omega
    simp only [List.length_nil, h, cpp.MapNode.visit, cpp.MapNode.end_, stl.begin,
      List.head?_nil, Option.map_none', if_true, List.map_nil]
  | cons x xs ih =>
    intro pre extra hnd
    have h : (x :: xs).length + 1 + extra = (xs.length + 1 + extra) + 1 := by
      simp only [List.length_cons]; omega
    have hb : stl.begin (x :: xs) = some x.addr := rfl
    have hne : (some x.addr : stl.iterator)
        ≠ (⟨pre ++ x :: xs⟩ : cpp.MapNode Node).end_ := by
      simp [cpp.MapNode.end_]
    have hd : (⟨pre ++ x :: xs⟩ : cpp.MapNode Node).deref (some x.addr) = .ok x.second := by
      simp only [cpp.MapNode.deref, stl.get_of_mem hnd (List.mem_append_right pre
        (List.mem_cons_self x xs))]
    have hpre : pre ++ x :: xs = (pre ++ [x]) ++ xs := by simp
    rw [h, hb, cpp.MapNode.visit, if_neg hne, hd]
    simp only [next_of_split pre x xs hnd]
    rw [hpre, ih (pre ++ [x]) extra (by rw [← hpre]; exact hnd)]
    simp

theorem tree_call_state {m : tree.MapNode Node}
    (hwf : stl.WF tree.KeyValuePair.stored m.m_nodes) (c : Call Node) :
    stl.WF tree.KeyValuePair.stored (m.call c).1.m_nodes
    ∧ (m.call c).1.lookup = c.bind m.lookup
    ∧ (m.call c).1.size = c.count m.lookup m.size := by
  have hmut : ∀ op : Op Node,
      stl.WF tree.KeyValuePair.stored (m.apply op).m_nodes
      ∧ (m.apply op).lookup = bind_step m.lookup op
      ∧ (m.apply op).size = count_step m.lookup m.size op :=
    fun op => ⟨tree_apply_WF hwf op,
      funext (fun k => tree_apply_lookup hwf (fun _ => rfl) op k), tree_apply_size hwf op⟩
  cases c with
  | insert key node => exact hmut (.insert key node)
  | erase key => exact hmut (.erase key)
  | clear => exact hmut .clear
  | find key => exact ⟨hwf, rfl, rfl⟩
  | size => exact ⟨hwf, rfl, rfl⟩
  | empty => exact ⟨hwf, rfl, rfl⟩

theorem cpp_call_state (bucket : key_type → List key_type → Nat) {m : cpp.MapNode Node}
    (hwf : stl.WF cpp.KeyValuePair.stored m.m_nodes) (c : Call Node) :
    stl.WF cpp.KeyValuePair.stored (m.call bucket c).1.m_nodes
    ∧ (m.call bucket c).1.lookup = c.bind m.lookup
    ∧ (m.call bucket c).1.size = c.count m.lookup m.size := by
  have hmut : ∀ op : Op Node,
      stl.WF cpp.KeyValuePair.stored (m.apply bucket op).m_nodes
      ∧ (m.apply bucket op).lookup = bind_step m.lookup op
      ∧ (m.apply bucket op).size = count_step m.lookup m.size op :=
    fun op => ⟨cpp_apply_WF bucket hwf op,
      funext (fun k => cpp_apply_lookup bucket hwf (fun _ => rfl) op k),
      cpp_apply_size bucket hwf op⟩
  cases c with
  | insert key node => exact hmut (.insert key node)
  | erase key => exact hmut (.erase key)
  | clear => exact hmut .clear
  | find key => exact ⟨hwf, rfl, rfl⟩
  | size => exact ⟨hwf, rfl, rfl⟩
  | empty => exact ⟨hwf, rfl, rfl⟩

/-- The `std::map` class returns, call by call, what the calls alone determine. -/
theorem tree_calls_refine (cs : List (Call Node)) :
    ∀ (m : tree.MapNode Node), stl.WF tree.KeyValuePair.stored m.m_nodes →
      (m.calls cs).2 = (calls_spec m.lookup m.size cs).2.2
      ∧ stl.WF tree.KeyValuePair.stored (m.calls cs).1.m_nodes
      ∧ (m.calls cs).1.lookup = (calls_spec m.lookup m.size cs).1
      ∧ (m.calls cs).1.size = (calls_spec m.lookup m.size cs).2.1 := by
  induction cs with
  | nil => intro m hwf; exact ⟨rfl, hwf, rfl, rfl⟩
  | cons c cs ih =>
    intro m hwf
    obtain ⟨hw1, hl1, hs1⟩ := tree_call_state hwf c
    obtain ⟨h1, h2, h3, h4⟩ := ih (m.call c).1 hw1
    rw [hl1, hs1] at h1 h3 h4
    refine ⟨?_, h2, h3, h4⟩
    simp only [tree.MapNode.calls, calls_spec, h1, tree_call_returned hwf c]

/-- The `std::unordered_map` class returns, call by call, what the calls alone
determine. -/
theorem cpp_calls_refine (bucket : key_type → List key_type → Nat) (cs : List (Call Node)) :
    ∀ (m : cpp.MapNode Node), stl.WF cpp.KeyValuePair.stored m.m_nodes →
      (m.calls bucket cs).2 = (calls_spec m.lookup m.size cs).2.2
      ∧ stl.WF cpp.KeyValuePair.stored (m.calls bucket cs).1.m_nodes
      ∧ (m.calls bucket cs).1.lookup = (calls_spec m.lookup m.size cs).1
      ∧ (m.calls bucket cs).1.size = (calls_spec m.lookup m.size cs).2.1 := by
  induction cs with
  | nil => intro m hwf; exact ⟨rfl, hwf, rfl, rfl⟩
  | cons c cs ih =>
    intro m hwf
    obtain ⟨hw1, hl1, hs1⟩ := cpp_call_state bucket hwf c
    obtain ⟨h1, h2, h3, h4⟩ := ih (m.call bucket c).1 hw1
    rw [hl1, hs1] at h1 h3 h4
    refine ⟨?_, h2, h3, h4⟩
    simp only [cpp.MapNode.calls, calls_spec, h1, cpp_call_returned bucket hwf c]

theorem tree_pairs_mem {m : tree.MapNode Node}
    (hwf : stl.WF tree.KeyValuePair.stored m.m_nodes)
    (p : Except Fault key_type × Except Fault Node) :
    p ∈ (m.m_nodes.map (fun e => e.second)).map (fun kv => (kv.key m, kv.value))
      ↔ ∃ k n, m.lookup k = some n ∧ p = (.ok k, .ok n) := by
  constructor
  · intro hp
    obtain ⟨kv, hkv, rfl⟩ := List.mem_map.1 hp
    obtain ⟨e, he, rfl⟩ := List.mem_map.1 hkv
    obtain ⟨n, hn, hv⟩ := tree_value_of_mem hwf he
    refine ⟨e.first, n, ?_, ?_⟩
    · simp only [tree.MapNode.lookup, find?_key_of_mem hwf.1 he, Option.some_bind, hn]
    · rw [tree_key_of_mem hwf he, hv]
  · rintro ⟨k, n, hl, rfl⟩
    simp only [tree.MapNode.lookup] at hl
    cases hf : m.m_nodes.find? (fun e => e.first == k) with
    | none => simp [hf] at hl
    | some e =>
      have he := List.mem_of_find?_eq_some hf
      have hn : e.second.m_value = some n := by simpa [hf] using hl
      refine List.mem_map.2 ⟨e.second, List.mem_map_of_mem _ he, ?_⟩
      rw [tree_key_of_mem hwf he, stl.key_eq_of_find? hf]
      simp [tree.KeyValuePair.value, hn, unique_ptr.deref]

theorem cpp_pairs_mem {m : cpp.MapNode Node}
    (hwf : stl.WF cpp.KeyValuePair.stored m.m_nodes)
    (p : Except Fault key_type × Except Fault Node) :
    p ∈ (m.m_nodes.map (fun e => e.second)).map
          (fun kv => ((.ok kv.key : Except Fault key_type), kv.value))
      ↔ ∃ k n, m.lookup k = some n ∧ p = (.ok k, .ok n) := by
  constructor
  · intro hp
    obtain ⟨kv, hkv, rfl⟩ := List.mem_map.1 hp
    obtain ⟨e, he, rfl⟩ := List.mem_map.1 hkv
    obtain ⟨hk, hv⟩ := hwf.2.2 e he
    cases hn : e.second.m_value with
    | none => simp [hn] at hv
    | some n =>
      refine ⟨e.first, n, ?_, ?_⟩
      · simp only [cpp.MapNode.lookup, find?_key_of_mem hwf.1 he, Option.some_bind, hn]
      · simp [cpp.KeyValuePair.key, hk, cpp.KeyValuePair.value, hn, unique_ptr.deref]
  · rintro ⟨k, n, hl, rfl⟩
    simp only [cpp.MapNode.lookup] at hl
    cases hf : m.m_nodes.find? (fun e => e.first == k) with
    | none => simp [hf] at hl
    | some e =>
      have he := List.mem_of_find?_eq_some hf
      have hn : e.second.m_value = some n := by simpa [hf] using hl
      have hk := (hwf.2.2 e he).1
      refine List.mem_map.2 ⟨e.second, List.mem_map_of_mem _ he, ?_⟩
      simp [cpp.KeyValuePair.key, hk, stl.key_eq_of_find? hf, cpp.KeyValuePair.value, hn,
        unique_ptr.deref]

/-- C22. The two `MapNode` classes are observationally equivalent.  For every
sequence of `insert`, `erase`, `clear`, `find`, `size` and `empty` calls on an
empty map, every call returns the same in the `std::map` class and in the
`std::unordered_map` class (the same failure or inserted flag, the same erase
count, the same size and emptiness, and through a returned iterator either
`end()` in both or an entry with the same `key()` and `value()`), namely what
the calls alone determine.  Afterwards the loops from `begin()` to `end()`
visit equally many entries in both, with the same set of `key()` and `value()`
pairs. -/
theorem map_nodes_observationally_equivalent (bucket : key_type → List key_type → Nat)
    (cs : List (Call Node)) (extra : Nat) :
    (({} : tree.MapNode Node).calls cs).2 = (({} : cpp.MapNode Node).calls bucket cs).2
    ∧ (({} : tree.MapNode Node).calls cs).2 = (calls_spec (fun _ => none) 0 cs).2.2
    ∧ ∃ (et : List (tree.KeyValuePair Node)) (ec : List (cpp.KeyValuePair Node)),
        (({} : tree.MapNode Node).calls cs).1.visit
            ((({} : tree.MapNode Node).calls cs).1.size + 1 + extra)
            (({} : tree.MapNode Node).calls cs).1.begin = some (.ok et)
        ∧ (({} : cpp.MapNode Node).calls bucket cs).1.visit
            ((({} : cpp.MapNode Node).calls bucket cs).1.size + 1 + extra)
            (({} : cpp.MapNode Node).calls bucket cs).1.begin = some (.ok ec)
        ∧ et.length = ec.length
        ∧ ∀ p, p ∈ et.map (fun kv => (kv.key (({} : tree.MapNode Node).calls cs).1, kv.value))
            ↔ p ∈ ec.map (fun kv => ((.ok kv.key : Except Fault key_type), kv.value)) := by
  obtain ⟨ht1, ht2, ht3, ht4⟩ := tree_calls_refine cs ({} : tree.MapNode Node) (stl.WF_nil _)
  obtain ⟨hc1, hc2, hc3, hc4⟩ :=
    cpp_calls_refine bucket cs ({} : cpp.MapNode Node) (stl.WF_nil _)
  have hlt : ({} : tree.MapNode Node).lookup = fun _ => none := rfl
  have hlc : ({} : cpp.MapNode Node).lookup = fun _ => none := rfl
  have hst : ({} : tree.MapNode Node).size = 0 := rfl
  have hsc : ({} : cpp.MapNode Node).size = 0 := rfl
  rw [hlt, hst] at ht1 ht3 ht4
  rw [hlc, hsc] at hc1 hc3 hc4
  refine ⟨by rw [ht1, hc1], ht1, ?_⟩
  generalize (({} : tree.MapNode Node).calls cs).1 = mt at ht2 ht3 ht4 ⊢
  generalize (({} : cpp.MapNode Node).calls bucket cs).1 = mc at hc2 hc3 hc4 ⊢
  refine ⟨mt.m_nodes.map (fun e => e.second), mc.m_nodes.map (fun e => e.second), ?_, ?_, ?_,
    ?_⟩
  · have h := tree_visit_suffix mt.m_nodes [] extra (by simpa using ht2.2.1)
    simpa [tree.MapNode.size, tree.MapNode.begin] using h
  · have h := cpp_visit_suffix mc.m_nodes [] extra (by simpa using hc2.2.1)
    simpa [cpp.MapNode.size, cpp.MapNode.begin] using h
  · simp only [List.length_map]
    have h1 : mt.m_nodes.length = mt.size := rfl
    have h2 : mc.m_nodes.length = mc.size := rfl
    rw [h1, h2, ht4, hc4]
  · intro p
    rw [tree_pairs_mem ht2 p, cpp_pairs_mem hc2 p, ht3, hc3]

end equivalence

end mad.interfaces
